import Mathlib

/-!
Verification of the `cookie` package (Go): basic, signed, and encrypted
HTTP cookies.  The Go source (`cookie.go`) is shallowly embedded here:

* Go byte strings (`string`, `[]byte`) become `List Nat` with every
  element `< 256` (the predicate `ValidB`); machine bytes/words are `Nat`
  with explicit `% 2 ^ w` masking where overflow matters.
* The external collaborators the package calls into are embedded from
  their sources as well: `encoding/base64` (URL alphabet, padded),
  `crypto/sha256` + `crypto/hmac`, `crypto/aes` + `crypto/cipher` (GCM),
  `net/http` cookie serialization (`Cookie.String`, `SetCookie`,
  `Request.Cookie`), and `strconv.Atoi`.
* The HTTP response is a list of emitted cookies; the request is a list
  of `(name, raw value)` pairs; the secure random nonce consumed by
  `WriteEncrypted` is passed as an explicit argument.
* Go `error` values are the inductive `GoErr`; wrapping via
  `fmt.Errorf("...: %w", e)` is `GoErr.wrap`, the double form
  `fmt.Errorf("%w: %w", a, b)` is `GoErr.wrap2`, and `errors.Is` is
  `GoErr.is`.
-/

/-- Every element of the list is a byte (`< 256`): the image of a Go
`string` / `[]byte`. -/
def ValidB (l : List Nat) : Prop := ∀ b ∈ l, b < 256

instance (l : List Nat) : Decidable (ValidB l) := by
  unfold ValidB; infer_instance

/-- Byte list of an ASCII Lean string literal (used only on ASCII text,
mirroring Go string literals). -/
def ascii (s : String) : List Nat := s.data.map Char.toNat

theorem validB_append {a b : List Nat} (ha : ValidB a) (hb : ValidB b) :
    ValidB (a ++ b) := by
  intro x hx
  rcases List.mem_append.1 hx with h | h
  · exact ha x h
  · exact hb x h

theorem validB_cons {a : Nat} {l : List Nat} (ha : a < 256) (hl : ValidB l) :
    ValidB (a :: l) := by
  intro x hx
  rcases List.mem_cons.1 hx with h | h
  · omega
  · exact hl x h

theorem validB_nil : ValidB [] := by intro x hx; cases hx

/-! ## encoding/base64 — URL alphabet, padded (`base64.URLEncoding`)

`EncodeToString` walks the input three bytes at a time producing four
alphabet characters, padding the final group with `=`.  `DecodeString`
skips `\r`/`\n`, consumes four characters at a time and fails
(`CorruptInputError`) on any byte outside the alphabet, misplaced
padding, or a trailing incomplete group.  Go's byte shifts (`b >> 2`,
`b & 0x3F`, ...) are written as `/`, `%`, `*` on `Nat`. -/

/-- The URL-safe base64 alphabet `A-Z a-z 0-9 - _` as ASCII codes:
character for the 6-bit value `v`. -/
def b64char (v : Nat) : Nat :=
  (ascii "ABCDEFGHIJKLMNOPQRSTUVWXYZabcdefghijklmnopqrstuvwxyz0123456789-_").getD v 0

/-- Inverse of `b64char`: 6-bit value of an alphabet byte, `none` for a
byte outside the alphabet (Go's `decodeMap` entry `0xFF`). -/
def b64val (c : Nat) : Option Nat :=
  if 65 ≤ c ∧ c ≤ 90 then some (c - 65)
  else if 97 ≤ c ∧ c ≤ 122 then some (c - 97 + 26)
  else if 48 ≤ c ∧ c ≤ 57 then some (c - 48 + 52)
  else if c = 45 then some 62
  else if c = 95 then some 63
  else none

/-- `base64.URLEncoding.EncodeToString`: three input bytes at a time
become four alphabet bytes; a final group of one byte becomes two
characters and `==`, of two bytes three characters and `=`. -/
def b64encode : List Nat → List Nat
  | [] => []
  | [b0] =>
      [b64char (b0 / 4), b64char (b0 % 4 * 16), 61, 61]
  | [b0, b1] =>
      [b64char (b0 / 4), b64char (b0 % 4 * 16 + b1 / 16),
       b64char (b1 % 16 * 4), 61]
  | b0 :: b1 :: b2 :: rest =>
      b64char (b0 / 4) :: b64char (b0 % 4 * 16 + b1 / 16) ::
      b64char (b1 % 16 * 4 + b2 / 64) :: b64char (b2 % 64) ::
      b64encode rest

/-- Decode the (already `\r`/`\n`-stripped) character stream four bytes
at a time.  Mirrors Go's `decodeQuantum` for the padded URL encoding:
padding may only appear as the final `==` or `=` of the input, and the
bits an incomplete final group leaves over are discarded (Go's
non-`Strict` mode). -/
def b64decodeGroups : List Nat → Option (List Nat)
  | [] => some []
  | c0 :: c1 :: c2 :: c3 :: rest =>
      match b64val c0, b64val c1 with
      | some v0, some v1 =>
          if c2 = 61 then
            if c3 = 61 ∧ rest = [] then some [v0 * 4 + v1 / 16] else none
          else
            match b64val c2 with
            | some v2 =>
                if c3 = 61 then
                  if rest = [] then
                    some [v0 * 4 + v1 / 16, v1 % 16 * 16 + v2 / 4]
                  else none
                else
                  match b64val c3 with
                  | some v3 =>
                      (b64decodeGroups rest).map
                        (fun tl =>
                          [v0 * 4 + v1 / 16, v1 % 16 * 16 + v2 / 4,
                           v2 % 4 * 64 + v3] ++ tl)
                  | none => none
            | none => none
      | _, _ => none
  | _ => none

/-- `base64.URLEncoding.DecodeString`: newline bytes are skipped, then
the stream is decoded in four-character groups; any leftover characters
(length not a multiple of four) are a `CorruptInputError`. -/
def b64decode (s : List Nat) : Option (List Nat) :=
  b64decodeGroups (s.filter (fun c => c ≠ 10 ∧ c ≠ 13))

theorem b64char_lt (v : Nat) : b64char v < 256 := by
  unfold b64char
  rcases Nat.lt_or_ge v 64 with h | h
  · have : ∀ w, w < 64 →
        (ascii "ABCDEFGHIJKLMNOPQRSTUVWXYZabcdefghijklmnopqrstuvwxyz0123456789-_").getD w 0 < 256 := by
      decide
    exact this v h
  · rw [List.getD_eq_default]
    · omega
    · simpa [ascii] using h

theorem validB_b64encode (l : List Nat) : ValidB (b64encode l) := by
  induction l using b64encode.induct with
  | case1 => exact validB_nil
  | case2 b0 =>
      intro x hx
      simp only [b64encode, List.mem_cons] at hx
      rcases hx with h | h | h | h | h
      all_goals first
        | (subst h; exact b64char_lt _)
        | omega
        | cases h
  | case3 b0 b1 =>
      intro x hx
      simp only [b64encode, List.mem_cons] at hx
      rcases hx with h | h | h | h | h
      all_goals first
        | (subst h; exact b64char_lt _)
        | omega
        | cases h
  | case4 b0 b1 b2 rest ih =>
      intro x hx
      simp only [b64encode, List.mem_cons] at hx
      rcases hx with h | h | h | h | h
      all_goals first
        | (subst h; exact b64char_lt _)
        | exact ih x h

theorem b64val_b64char {v : Nat} (h : v < 64) : b64val (b64char v) = some v := by
  revert v h
  decide

theorem b64char_default {v : Nat} (h : ¬ v < 64) : b64char v = 0 := by
  unfold b64char
  rw [List.getD_eq_default]
  simpa [ascii] using Nat.ge_of_not_lt h

theorem b64char_ne_61 (v : Nat) : b64char v ≠ 61 := by
  by_cases h : v < 64
  · exact (by decide : ∀ w, w < 64 → b64char w ≠ 61) v h
  · rw [b64char_default h]; omega

theorem b64char_ne_10 (v : Nat) : b64char v ≠ 10 := by
  by_cases h : v < 64
  · exact (by decide : ∀ w, w < 64 → b64char w ≠ 10) v h
  · rw [b64char_default h]; omega

theorem b64char_ne_13 (v : Nat) : b64char v ≠ 13 := by
  by_cases h : v < 64
  · exact (by decide : ∀ w, w < 64 → b64char w ≠ 13) v h
  · rw [b64char_default h]; omega

/-- Every byte of an encoding is an alphabet byte or `=`; in particular
never a newline. -/
theorem b64encode_mem (l : List Nat) :
    ∀ c ∈ b64encode l, c ≠ 10 ∧ c ≠ 13 := by
  induction l using b64encode.induct with
  | case1 => intro c hc; cases hc
  | case2 b0 =>
      intro c hc
      simp only [b64encode, List.mem_cons] at hc
      rcases hc with h | h | h | h | h
      all_goals first
        | (subst h; exact ⟨b64char_ne_10 _, b64char_ne_13 _⟩)
        | (subst h; omega)
        | cases h
  | case3 b0 b1 =>
      intro c hc
      simp only [b64encode, List.mem_cons] at hc
      rcases hc with h | h | h | h | h
      all_goals first
        | (subst h; exact ⟨b64char_ne_10 _, b64char_ne_13 _⟩)
        | (subst h; omega)
        | cases h
  | case4 b0 b1 b2 rest ih =>
      intro c hc
      simp only [b64encode, List.mem_cons] at hc
      rcases hc with h | h | h | h | h
      all_goals first
        | (subst h; exact ⟨b64char_ne_10 _, b64char_ne_13 _⟩)
        | exact ih c h

/-- Encoding produces no newline bytes, so the decoder's newline filter
is the identity on encoder output. -/
theorem b64encode_filter (l : List Nat) :
    (b64encode l).filter (fun c => c ≠ 10 ∧ c ≠ 13) = b64encode l := by
  apply List.filter_eq_self.mpr
  intro a ha
  simpa using b64encode_mem l a ha

/-- Round trip of the transport codec: decoding an encoded byte string
gives the bytes back. -/
theorem b64decode_b64encode {l : List Nat} (h : ValidB l) :
    b64decode (b64encode l) = some l := by
  unfold b64decode
  rw [b64encode_filter]
  induction l using b64encode.induct with
  | case1 => rfl
  | case2 b0 =>
      have hb0 : b0 < 256 := h b0 (by simp)
      simp only [b64encode, b64decodeGroups,
        b64val_b64char (by omega : b0 / 4 < 64),
        b64val_b64char (by omega : b0 % 4 * 16 < 64),
        if_neg (b64char_ne_61 (b0 % 4 * 16)), if_pos (And.intro rfl rfl)]
      have e1 : b0 / 4 * 4 + b0 % 4 * 16 / 16 = b0 := by omega
      rw [e1]
      simp
  | case3 b0 b1 =>
      have hb0 : b0 < 256 := h b0 (by simp)
      have hb1 : b1 < 256 := h b1 (by simp)
      simp only [b64encode, b64decodeGroups,
        b64val_b64char (by omega : b0 / 4 < 64),
        b64val_b64char (by omega : b0 % 4 * 16 + b1 / 16 < 64),
        b64val_b64char (by omega : b1 % 16 * 4 < 64),
        if_neg (b64char_ne_61 (b0 % 4 * 16 + b1 / 16)), if_pos rfl]
      have e1 : b0 / 4 * 4 + (b0 % 4 * 16 + b1 / 16) / 16 = b0 := by omega
      have e2 : (b0 % 4 * 16 + b1 / 16) % 16 * 16 + b1 % 16 * 4 / 4 = b1 := by
        omega
      rw [e1, e2]
      simp [b64char_ne_61]
  | case4 b0 b1 b2 rest ih =>
      have hb0 : b0 < 256 := h b0 (by simp)
      have hb1 : b1 < 256 := h b1 (by simp)
      have hb2 : b2 < 256 := h b2 (by simp)
      have hrest : ValidB rest := by
        intro x hx; exact h x (by simp [hx])
      simp only [b64encode, b64decodeGroups,
        b64val_b64char (by omega : b0 / 4 < 64),
        b64val_b64char (by omega : b0 % 4 * 16 + b1 / 16 < 64),
        b64val_b64char (by omega : b1 % 16 * 4 + b2 / 64 < 64),
        b64val_b64char (by omega : b2 % 64 < 64),
        if_neg (b64char_ne_61 (b0 % 4 * 16 + b1 / 16)),
        if_neg (b64char_ne_61 (b1 % 16 * 4 + b2 / 64)),
        if_neg (b64char_ne_61 (b2 % 64)),
        ih hrest, Option.map_some]
      have e1 : b0 / 4 * 4 + (b0 % 4 * 16 + b1 / 16) / 16 = b0 := by omega
      have e2 :
          (b0 % 4 * 16 + b1 / 16) % 16 * 16 + (b1 % 16 * 4 + b2 / 64) / 4 = b1 := by
        omega
      have e3 : (b1 % 16 * 4 + b2 / 64) % 4 * 64 + b2 % 64 = b2 := by omega
      rw [e1, e2, e3]
      rfl

/-! ## crypto/sha256 and crypto/hmac

Executable SHA-256 over byte lists, faithful to FIPS 180-4 as
implemented by Go's `crypto/sha256` (big-endian words, length padding,
64 rounds).  32-bit words are `Nat` masked with `% 4294967296`; bitwise
complement of a 32-bit word is `^^^ 4294967295`. -/

/-- Big-endian byte rendering of `v` on `n` bytes. -/
def beBytes (n v : Nat) : List Nat :=
  (List.range n).map (fun i => v / 2 ^ (8 * (n - 1 - i)) % 256)

theorem length_beBytes (n v : Nat) : (beBytes n v).length = n := by
  simp [beBytes]

theorem validB_beBytes (n v : Nat) : ValidB (beBytes n v) := by
  intro b hb
  simp only [beBytes, List.mem_map] at hb
  obtain ⟨i, _, rfl⟩ := hb
  exact Nat.mod_lt _ (by omega)

/-- Big-endian 32-bit words from a byte stream (Go's `binary.BigEndian`
walk in `blockGeneric`); a trailing fragment shorter than four bytes is
never present on the inputs used. -/
def beWords : List Nat → List Nat
  | b0 :: b1 :: b2 :: b3 :: rest =>
      (b0 * 16777216 + b1 * 65536 + b2 * 256 + b3) :: beWords rest
  | _ => []

/-- Rotate a 32-bit word right by `n` (Go `bits.RotateLeft32(w, -n)`). -/
def rotr32 (n w : Nat) : Nat := w / 2 ^ n + w % 2 ^ n * 2 ^ (32 - n)

/-- The 64 SHA-256 round constants. -/
def sha256K : List Nat :=
  [1116352408, 1899447441, 3049323471, 3921009573,
   961987163, 1508970993, 2453635748, 2870763221,
   3624381080, 310598401, 607225278, 1426881987,
   1925078388, 2162078206, 2614888103, 3248222580,
   3835390401, 4022224774, 264347078, 604807628,
   770255983, 1249150122, 1555081692, 1996064986,
   2554220882, 2821834349, 2952996808, 3210313671,
   3336571891, 3584528711, 113926993, 338241895,
   666307205, 773529912, 1294757372, 1396182291,
   1695183700, 1986661051, 2177026350, 2456956037,
   2730485921, 2820302411, 3259730800, 3345764771,
   3516065817, 3600352804, 4094571909, 275423344,
   430227734, 506948616, 659060556, 883997877,
   958139571, 1322822218, 1537002063, 1747873779,
   1955562222, 2024104815, 2227730452, 2361852424,
   2428436474, 2756734187, 3204031479, 3329325298]

/-- Initial SHA-256 hash state. -/
def sha256H0 : List Nat :=
  [1779033703, 3144134277, 1013904242, 2773480762,
   1359893119, 2600822924, 528734635, 1541459225]

/-- Message-schedule extension: prepend `48` new words to the reversed
16-word schedule (`w[i] = σ1 w[i-2] + w[i-7] + σ0 w[i-15] + w[i-16]`). -/
def sha256ExtendRev : Nat → List Nat → List Nat
  | 0, acc => acc
  | n + 1, acc =>
      let w2 := acc.getD 1 0
      let w7 := acc.getD 6 0
      let w15 := acc.getD 14 0
      let w16 := acc.getD 15 0
      let s0 := rotr32 7 w15 ^^^ rotr32 18 w15 ^^^ w15 / 2 ^ 3
      let s1 := rotr32 17 w2 ^^^ rotr32 19 w2 ^^^ w2 / 2 ^ 10
      sha256ExtendRev n ((s1 + w7 + s0 + w16) % 4294967296 :: acc)

/-- One SHA-256 round on the working state `(a,…,h)`. -/
def sha256Round (kw : Nat × Nat)
    (st : Nat × Nat × Nat × Nat × Nat × Nat × Nat × Nat) :
    Nat × Nat × Nat × Nat × Nat × Nat × Nat × Nat :=
  match st with
  | (a, b, c, d, e, f, g, h) =>
      let S1 := rotr32 6 e ^^^ rotr32 11 e ^^^ rotr32 25 e
      let ch := e &&& f ^^^ (e ^^^ 4294967295) &&& g
      let t1 := (h + S1 + ch + kw.1 + kw.2) % 4294967296
      let S0 := rotr32 2 a ^^^ rotr32 13 a ^^^ rotr32 22 a
      let maj := a &&& b ^^^ a &&& c ^^^ b &&& c
      let t2 := (S0 + maj) % 4294967296
      ((t1 + t2) % 4294967296, a, b, c, (d + t1) % 4294967296, e, f, g)

/-- Compress one padded 64-byte block into the running hash state. -/
def sha256Compress (hs block : List Nat) : List Nat :=
  let ws := (sha256ExtendRev 48 (beWords block).reverse).reverse
  let st0 := (hs.getD 0 0, hs.getD 1 0, hs.getD 2 0, hs.getD 3 0,
              hs.getD 4 0, hs.getD 5 0, hs.getD 6 0, hs.getD 7 0)
  let fin := (sha256K.zip ws).foldl (fun st kw => sha256Round kw st) st0
  [(fin.1 + hs.getD 0 0) % 4294967296,
   (fin.2.1 + hs.getD 1 0) % 4294967296,
   (fin.2.2.1 + hs.getD 2 0) % 4294967296,
   (fin.2.2.2.1 + hs.getD 3 0) % 4294967296,
   (fin.2.2.2.2.1 + hs.getD 4 0) % 4294967296,
   (fin.2.2.2.2.2.1 + hs.getD 5 0) % 4294967296,
   (fin.2.2.2.2.2.2.1 + hs.getD 6 0) % 4294967296,
   (fin.2.2.2.2.2.2.2 + hs.getD 7 0) % 4294967296]

/-- FIPS 180-4 padding: `0x80`, zeros to 56 mod 64, 8-byte big-endian
bit length. -/
def sha256Pad (msg : List Nat) : List Nat :=
  let l := msg.length
  msg ++ 128 :: List.replicate ((64 - (l + 9) % 64) % 64) 0 ++ beBytes 8 (8 * l)

/-- Split into 64-byte blocks.  Structural recursion on a fuel bounded
by the list length (one block consumes 64 ≥ 1 bytes, so the fuel never
runs out); this keeps the definition kernel-reducible. -/
def chunks64Aux : Nat → List Nat → List (List Nat)
  | 0, _ => []
  | _, [] => []
  | fuel + 1, l => l.take 64 :: chunks64Aux fuel (l.drop 64)

def chunks64 (l : List Nat) : List (List Nat) := chunks64Aux l.length l

/-- SHA-256 digest of a byte string. -/
def sha256 (msg : List Nat) : List Nat :=
  (((chunks64 (sha256Pad msg)).foldl sha256Compress sha256H0).map
    (beBytes 4)).flatten

theorem length_sha256Compress (hs block : List Nat) :
    (sha256Compress hs block).length = 8 := rfl

theorem length_foldl_sha256Compress (bs : List (List Nat)) (init : List Nat)
    (h : init.length = 8) : (bs.foldl sha256Compress init).length = 8 := by
  induction bs generalizing init with
  | nil => simpa using h
  | cons b bs ih => exact ih _ (length_sha256Compress _ _)

theorem length_flatten_beBytes (l : List Nat) :
    ((l.map (beBytes 4)).flatten).length = 4 * l.length := by
  induction l with
  | nil => simp
  | cons w ws ih =>
      simp only [List.map_cons, List.flatten_cons, List.length_append,
        length_beBytes, ih, List.length_cons]
      omega

theorem length_sha256 (msg : List Nat) : (sha256 msg).length = 32 := by
  unfold sha256
  rw [length_flatten_beBytes,
    length_foldl_sha256Compress (chunks64 (sha256Pad msg)) sha256H0 rfl]

theorem validB_sha256 (msg : List Nat) : ValidB (sha256 msg) := by
  intro b hb
  unfold sha256 at hb
  rw [List.mem_flatten] at hb
  obtain ⟨l, hl, hbl⟩ := hb
  rw [List.mem_map] at hl
  obtain ⟨w, _, rfl⟩ := hl
  exact validB_beBytes 4 w b hbl

/-- `hmac.New(sha256.New, key)` followed by writes of `msg` and
`Sum(nil)`: zero-pad (or hash) the key to the 64-byte block size, then
`H((k ^ opad) ‖ H((k ^ ipad) ‖ msg))`. -/
def hmacSha256 (key msg : List Nat) : List Nat :=
  let k0 := if 64 < key.length then sha256 key else key
  let kp := k0 ++ List.replicate (64 - k0.length) 0
  sha256 (kp.map (fun b => b ^^^ 92) ++ sha256 (kp.map (fun b => b ^^^ 54) ++ msg))

theorem length_hmacSha256 (key msg : List Nat) :
    (hmacSha256 key msg).length = 32 := length_sha256 _

theorem validB_hmacSha256 (key msg : List Nat) :
    ValidB (hmacSha256 key msg) := validB_sha256 _





-- FIPS 180-4 test vector: sanity check that the embedding computes
-- the standard digest of `"abc"`.
set_option maxRecDepth 100000 in
example :
    sha256 (ascii "abc") =
      [0xba, 0x78, 0x16, 0xbf, 0x8f, 0x01, 0xcf, 0xea,
       0x41, 0x41, 0x40, 0xde, 0x5d, 0xae, 0x22, 0x23,
       0xb0, 0x03, 0x61, 0xa3, 0x96, 0x17, 0x7a, 0x9c,
       0xb4, 0x10, 0xff, 0x61, 0xf2, 0x00, 0x15, 0xad] := by
  decide

-- RFC 4231 test case 2: HMAC-SHA256 with key `"Jefe"`.
set_option maxRecDepth 100000 in
example :
    hmacSha256 (ascii "Jefe") (ascii "what do ya want for nothing?") =
      [0x5b, 0xdc, 0xc1, 0x46, 0xbf, 0x60, 0x75, 0x4e,
       0x6a, 0x04, 0x24, 0x26, 0x08, 0x95, 0x75, 0xc7,
       0x5a, 0x00, 0x3f, 0x08, 0x9d, 0x27, 0x39, 0x83,
       0x9d, 0xec, 0x58, 0xb9, 0x64, 0xec, 0x38, 0x43] := by
  decide

/-! ## crypto/aes — the AES block cipher

Go's `aes.NewCipher` accepts keys of 16/24/32 bytes (returning
`KeySizeError` otherwise) and the resulting cipher implements the FIPS
197 block transform; Go's table-driven implementation is embedded here
by its extensional definition (S-box from the GF(2^8) inverse and
affine map, key expansion, `SubBytes`/`ShiftRows`/`MixColumns`/
`AddRoundKey`).  A word of the key schedule is a list of 4 bytes; the
16-byte block is kept in Go's flat (column-major) order. -/

/-- `xtime`: multiplication by `x` in GF(2^8) modulo `x^8+x^4+x^3+x+1`
(`b := a << 1; if a&0x80 != 0 { b ^= 0x1b }` on a `uint8`, the final
`% 256` being the byte truncation). -/
def xtime (a : Nat) : Nat :=
  if a % 256 ≥ 128 then (a % 256 * 2 ^^^ 0x1B) % 256 else a % 256 * 2

/-- GF(2^8) product (Russian-peasant loop over the 8 bits of `b`). -/
def gmulAux : Nat → Nat → Nat → Nat → Nat
  | 0, _, _, acc => acc
  | n + 1, a, b, acc =>
      gmulAux n (xtime a) (b / 2) (if b % 2 = 1 then acc ^^^ a else acc)

def gmul (a b : Nat) : Nat := gmulAux 8 (a % 256) (b % 256) 0

theorem xtime_lt (a : Nat) : xtime a < 256 := by
  unfold xtime
  split
  · exact Nat.mod_lt _ (by omega)
  · have h : a % 256 < 128 := by omega
    omega

theorem gmulAux_lt : ∀ (n a b acc : Nat), a < 256 → acc < 256 →
    gmulAux n a b acc < 256
  | 0, _, _, _, _, hacc => hacc
  | n + 1, a, b, acc, ha, hacc => by
      unfold gmulAux
      refine gmulAux_lt n _ _ _ (xtime_lt a) ?_
      split
      · have := Nat.xor_lt_two_pow (n := 8) (by omega : acc < 2 ^ 8)
          (by omega : a < 2 ^ 8)
        omega
      · exact hacc

theorem gmul_lt (a b : Nat) : gmul a b < 256 :=
  gmulAux_lt 8 _ _ 0 (Nat.mod_lt _ (by omega)) (by omega)

/-- GF(2^8) inverse via `x^254` (Fermat), as a product of the squarings
`x^2 · x^4 · … · x^128`; `ginv 0 = 0`, matching the S-box convention. -/
def ginv (x : Nat) : Nat :=
  let p2 := gmul x x
  let p4 := gmul p2 p2
  let p8 := gmul p4 p4
  let p16 := gmul p8 p8
  let p32 := gmul p16 p16
  let p64 := gmul p32 p32
  let p128 := gmul p64 p64
  gmul p2 (gmul p4 (gmul p8 (gmul p16 (gmul p32 (gmul p64 p128)))))

/-- Rotate the low 8 bits left by `n`. -/
def rotl8 (n b : Nat) : Nat := b % 256 / 2 ^ (8 - n) + b % 256 % 2 ^ (8 - n) * 2 ^ n

/-- The AES S-box: affine transform of the GF(2^8) inverse.  Computed
rather than tabulated; extensionally equal to Go's `sbox0` table. -/
def subByte (x : Nat) : Nat :=
  let i := ginv x
  i ^^^ rotl8 1 i ^^^ rotl8 2 i ^^^ rotl8 3 i ^^^ rotl8 4 i ^^^ 0x63

theorem rotl8_lt (n b : Nat) (h : n ≤ 8) : rotl8 n b < 256 := by
  unfold rotl8
  have h1 : b % 256 < 256 := Nat.mod_lt _ (by omega)
  have hp : 2 ^ (8 - n) * 2 ^ n = 256 := by
    rw [← pow_add]
    have hn : 8 - n + n = 8 := by omega
    rw [hn]
    norm_num
  have h2 : b % 256 / 2 ^ (8 - n) < 2 ^ n := by
    apply Nat.div_lt_of_lt_mul
    rw [hp]
    exact h1
  have h3 : b % 256 % 2 ^ (8 - n) < 2 ^ (8 - n) := Nat.mod_lt _ (by positivity)
  have h5 : 0 < 2 ^ n := by positivity
  have h6 : 2 ^ n ≤ 256 := by
    calc (2:Nat) ^ n ≤ 2 ^ 8 := Nat.pow_le_pow_right (by omega) h
      _ = 256 := by norm_num
  have hmul : b % 256 % 2 ^ (8 - n) * 2 ^ n ≤ 256 - 2 ^ n := by
    calc b % 256 % 2 ^ (8 - n) * 2 ^ n
        ≤ (2 ^ (8 - n) - 1) * 2 ^ n := Nat.mul_le_mul_right _ (by omega)
      _ = 256 - 2 ^ n := by rw [Nat.sub_mul, one_mul, hp]
  calc b % 256 / 2 ^ (8 - n) + b % 256 % 2 ^ (8 - n) * 2 ^ n
      ≤ 2 ^ n - 1 + (256 - 2 ^ n) := Nat.add_le_add (by omega) hmul
    _ < 256 := by omega

theorem xor_lt_256 {a b : Nat} (ha : a < 256) (hb : b < 256) : a ^^^ b < 256 :=
  Nat.xor_lt_two_pow (n := 8) (by omega) (by omega)

theorem subByte_lt (x : Nat) : subByte x < 256 := by
  unfold subByte
  have hi : ginv x < 256 := gmul_lt _ _
  exact xor_lt_256 (xor_lt_256 (xor_lt_256 (xor_lt_256 (xor_lt_256 hi
    (rotl8_lt 1 _ (by omega))) (rotl8_lt 2 _ (by omega)))
    (rotl8_lt 3 _ (by omega))) (rotl8_lt 4 _ (by omega))) (by omega)

-- FIPS 197 spot checks of the computed S-box.
set_option maxRecDepth 100000 in
example :
    subByte 0x00 = 0x63 ∧ subByte 0x01 = 0x7c ∧ subByte 0x53 = 0xed ∧
    subByte 0xff = 0x16 := by
  decide

/-- The S-box as a table indexed by the byte value, exactly Go's
`sbox0` array. -/
def sbox : List Nat := (List.range 256).map subByte

/-- Table lookup `sbox0[x]` (the `% 256` is the byte index range). -/
def subB (x : Nat) : Nat := sbox.getD (x % 256) 0

theorem subB_lt (x : Nat) : subB x < 256 := by
  unfold subB
  have hlen : sbox.length = 256 := by
    simp only [sbox, List.length_map, List.length_range]
  have hx : x % 256 < sbox.length := by
    rw [hlen]
    exact Nat.mod_lt _ (by omega)
  rw [List.getD_eq_getElem _ _ hx]
  have hmem : sbox[x % 256] ∈ sbox := List.getElem_mem hx
  simp only [sbox, List.mem_map] at hmem
  obtain ⟨y, _, hy⟩ := hmem
  simp only [sbox]
  rw [← hy]
  exact subByte_lt y

/-- Words of the key schedule are 4-byte lists; `RotWord` of FIPS 197. -/
def rotWord : List Nat → List Nat
  | [a, b, c, d] => [b, c, d, a]
  | w => w

def subWord (w : List Nat) : List Nat := w.map subB

def xorWord (a b : List Nat) : List Nat := List.zipWith (fun x y => x ^^^ y) a b

/-- Round-constant byte `rcon[j] = x^(j-1)` in GF(2^8). -/
def rconAux : Nat → Nat
  | 0 => 1
  | n + 1 => xtime (rconAux n)

def rconByte (j : Nat) : Nat := rconAux (j - 1)

/-- One step of FIPS 197 key expansion, producing `w[i]` where `i` is
the number of words generated so far (the schedule is kept reversed
while being built). -/
def nextWord (nk : Nat) (rev : List (List Nat)) : List Nat :=
  let i := rev.length
  let prev := rev.headD [0, 0, 0, 0]
  let back := rev.getD (nk - 1) [0, 0, 0, 0]
  let temp :=
    if i % nk = 0 then
      xorWord (subWord (rotWord prev)) [rconByte (i / nk), 0, 0, 0]
    else if 6 < nk ∧ i % nk = 4 then subWord prev
    else prev
  xorWord back temp

def expandAux (nk : Nat) : Nat → List (List Nat) → List (List Nat)
  | 0, rev => rev
  | n + 1, rev => expandAux nk n (nextWord nk rev :: rev)

/-- Split a byte list into 4-byte words. -/
def chunk4 : List Nat → List (List Nat)
  | b0 :: b1 :: b2 :: b3 :: rest => [b0, b1, b2, b3] :: chunk4 rest
  | _ => []

/-- FIPS 197 key expansion: `4 * (nr + 1)` words from an `nk`-word key,
`nr = nk + 6`. -/
def keyExpansion (key : List Nat) : List (List Nat) :=
  let nk := key.length / 4
  (expandAux nk (4 * (nk + 6 + 1) - nk) (chunk4 key).reverse).reverse

/-- An AES cipher instance: the expanded round keys (16 bytes each) and
the round count. -/
structure AESCipher where
  nr : Nat
  rkeys : List (List Nat)

def mkAES (key : List Nat) : AESCipher :=
  let w := keyExpansion key
  let nr := key.length / 4 + 6
  { nr := nr,
    rkeys := (List.range (nr + 1)).map (fun r => ((w.drop (4 * r)).take 4).flatten) }

def subBytes (s : List Nat) : List Nat := s.map subB

def zero16 : List Nat := List.replicate 16 0

/-- `ShiftRows` on the flat column-major state:
`out[r + 4c] = in[r + 4((c + r) % 4)]`. -/
def shiftRows : List Nat → List Nat
  | [a0, a1, a2, a3, a4, a5, a6, a7, a8, a9, a10, a11, a12, a13, a14, a15] =>
      [a0, a5, a10, a15, a4, a9, a14, a3, a8, a13, a2, a7, a12, a1, a6, a11]
  | _ => zero16

/-- `MixColumns` on one column: the circulant matrix `(2 3 1 1)`
(multiplication by 1 written as `gmul 1` so every entry is a GF(2^8)
product). -/
def mixCol (b0 b1 b2 b3 : Nat) : List Nat :=
  [gmul 2 b0 ^^^ gmul 3 b1 ^^^ gmul 1 b2 ^^^ gmul 1 b3,
   gmul 1 b0 ^^^ gmul 2 b1 ^^^ gmul 3 b2 ^^^ gmul 1 b3,
   gmul 1 b0 ^^^ gmul 1 b1 ^^^ gmul 2 b2 ^^^ gmul 3 b3,
   gmul 3 b0 ^^^ gmul 1 b1 ^^^ gmul 1 b2 ^^^ gmul 2 b3]

def mixColumns : List Nat → List Nat
  | [a0, a1, a2, a3, a4, a5, a6, a7, a8, a9, a10, a11, a12, a13, a14, a15] =>
      mixCol a0 a1 a2 a3 ++ mixCol a4 a5 a6 a7 ++
      mixCol a8 a9 a10 a11 ++ mixCol a12 a13 a14 a15
  | _ => zero16

def xorBytes (a b : List Nat) : List Nat := List.zipWith (fun x y => x ^^^ y) a b

/-- Pack a 16-byte state into one big-endian natural and unpack it
again.  Go's implementation keeps the state packed in four `uint32`
registers between rounds; on 16 valid bytes `unpackState ∘ packState`
is the identity, and it normalises the state representation after each
round. -/
def packState (s : List Nat) : Nat := s.foldl (fun a b => a * 256 + b) 0

def unpackState (v : Nat) : List Nat := beBytes 16 v

def normState (s : List Nat) : List Nat := unpackState (packState s)

/-- The AES block transform (FIPS 197 `Cipher`): initial `AddRoundKey`,
`nr - 1` full rounds, final round without `MixColumns`. -/
def encryptBlock (aes : AESCipher) (block : List Nat) : List Nat :=
  let s0 := normState (xorBytes block (aes.rkeys.getD 0 zero16))
  let sN := (List.range (aes.nr - 1)).foldl
    (fun s r =>
      normState
        (xorBytes (mixColumns (shiftRows (subBytes s))) (aes.rkeys.getD (r + 1) zero16)))
    s0
  normState (xorBytes (shiftRows (subBytes sN)) (aes.rkeys.getD aes.nr zero16))

theorem foldl_invariant {α β : Type} (P : α → Prop) (f : α → β → α)
    (l : List β) (init : α) (h0 : P init) (hstep : ∀ a b, P a → P (f a b)) :
    P (l.foldl f init) := by
  induction l generalizing init with
  | nil => exact h0
  | cons x xs ih => exact ih _ (hstep init x h0)

theorem getD_lt {l : List Nat} {i d : Nat} (hl : ValidB l) (hd : d < 256) :
    l.getD i d < 256 := by
  rcases Nat.lt_or_ge i l.length with h | h
  · rw [List.getD_eq_getElem l d h]
    exact hl _ (List.getElem_mem h)
  · rw [List.getD_eq_default l d h]
    exact hd

theorem validB_zero16 : ValidB zero16 := by
  intro b hb
  simp only [zero16, List.mem_replicate] at hb
  omega

theorem validB_shiftRows {s : List Nat} (hs : ValidB s) :
    ValidB (shiftRows s) := by
  unfold shiftRows
  split
  · rename_i a0 a1 a2 a3 a4 a5 a6 a7 a8 a9 a10 a11 a12 a13 a14 a15
    intro b hb
    simp only [List.mem_cons] at hb
    rcases hb with h | h | h | h | h | h | h | h | h | h | h | h | h | h | h | h | h
    all_goals first
      | (subst h; exact hs _ (by simp))
      | cases h
  · exact validB_zero16

theorem validB_mixCol (b0 b1 b2 b3 : Nat) : ValidB (mixCol b0 b1 b2 b3) := by
  intro b hb
  simp only [mixCol, List.mem_cons] at hb
  rcases hb with h | h | h | h | h
  all_goals first
    | (subst h;
       exact xor_lt_256 (xor_lt_256 (xor_lt_256 (gmul_lt _ _) (gmul_lt _ _))
         (gmul_lt _ _)) (gmul_lt _ _))
    | cases h

theorem validB_mixColumns (s : List Nat) : ValidB (mixColumns s) := by
  unfold mixColumns
  split
  · exact validB_append (validB_append (validB_append (validB_mixCol _ _ _ _)
      (validB_mixCol _ _ _ _)) (validB_mixCol _ _ _ _)) (validB_mixCol _ _ _ _)
  · exact validB_zero16

theorem validB_subBytes (s : List Nat) : ValidB (subBytes s) := by
  intro b hb
  simp only [subBytes, List.mem_map] at hb
  obtain ⟨x, _, rfl⟩ := hb
  exact subB_lt x

theorem validB_xorBytes {a b : List Nat} (ha : ValidB a) (hb : ValidB b) :
    ValidB (xorBytes a b) := by
  intro x hx
  simp only [xorBytes] at hx
  rw [List.mem_iff_getElem] at hx
  obtain ⟨i, hi, rfl⟩ := hx
  have hia : i < a.length := List.lt_length_left_of_zipWith hi
  have hib : i < b.length := List.lt_length_right_of_zipWith hi
  rw [List.getElem_zipWith]
  exact xor_lt_256 (ha _ (List.getElem_mem hia)) (hb _ (List.getElem_mem hib))

theorem length_shiftRows (s : List Nat) : (shiftRows s).length = 16 := by
  unfold shiftRows
  split
  · rfl
  · rfl

theorem length_mixColumns (s : List Nat) : (mixColumns s).length = 16 := by
  unfold mixColumns
  split
  · rfl
  · rfl

theorem length_subBytes (s : List Nat) : (subBytes s).length = s.length :=
  List.length_map ..

theorem length_xorBytes (a b : List Nat) :
    (xorBytes a b).length = min a.length b.length := List.length_zipWith ..

/-- Well-formed cipher: one round key per round plus one, each 16 valid
bytes. -/
def WfAES (aes : AESCipher) : Prop :=
  aes.rkeys.length = aes.nr + 1 ∧ ∀ rk ∈ aes.rkeys, rk.length = 16 ∧ ValidB rk

theorem wfAES_getD {aes : AESCipher} (h : WfAES aes) (i : Nat) :
    (aes.rkeys.getD i zero16).length = 16 ∧ ValidB (aes.rkeys.getD i zero16) := by
  rcases Nat.lt_or_ge i aes.rkeys.length with hi | hi
  · rw [List.getD_eq_getElem _ _ hi]
    exact h.2 _ (List.getElem_mem hi)
  · rw [List.getD_eq_default _ _ hi]
    constructor
    · simp [zero16]
    · intro b hb
      simp only [zero16, List.mem_replicate] at hb
      omega

/-- The block transform always yields 16 valid bytes: the final state
normalisation fixes the shape and byte range. -/
theorem encryptBlock_len_valid (aes : AESCipher) (block : List Nat) :
    (encryptBlock aes block).length = 16 ∧ ValidB (encryptBlock aes block) := by
  refine ⟨?_, ?_⟩
  · simp only [encryptBlock, normState, unpackState]
    exact length_beBytes _ _
  · simp only [encryptBlock, normState, unpackState]
    exact validB_beBytes _ _

theorem beBytes_succ (n v : Nat) :
    beBytes (n + 1) v = beBytes n (v / 256) ++ [v % 256] := by
  unfold beBytes
  rw [List.range_succ, List.map_append]
  congr 1
  · apply List.map_congr_left
    intro i hi
    rw [List.mem_range] at hi
    have h1 : v / 256 / 2 ^ (8 * (n - 1 - i)) = v / 2 ^ (8 * (n + 1 - 1 - i)) := by
      rw [Nat.div_div_eq_div_mul]
      congr 1
      have h2 : (256 : Nat) = 2 ^ 8 := by norm_num
      rw [h2, ← pow_add]
      congr 1
      omega
    rw [h1]
  · simp

theorem packState_append (l : List Nat) (b : Nat) :
    packState (l ++ [b]) = packState l * 256 + b := by
  simp [packState, List.foldl_append]

/-- On a list of valid bytes the big-endian packing round-trips, so
`normState` is the identity on every well-formed 16-byte state and the
packed-state round is extensionally FIPS 197. -/
theorem beBytes_packState {l : List Nat} (hv : ValidB l) :
    beBytes l.length (packState l) = l := by
  induction l using List.reverseRecOn with
  | nil => rfl
  | append_singleton l b ih =>
      have hb : b < 256 := hv b (by simp)
      have hvl : ValidB l := fun x hx => hv x (by simp [hx])
      have hdiv : (packState l * 256 + b) / 256 = packState l := by omega
      have hmod : (packState l * 256 + b) % 256 = b := by omega
      rw [packState_append, List.length_append, List.length_singleton,
        beBytes_succ, hdiv, hmod, ih hvl]

theorem normState_id {s : List Nat} (hlen : s.length = 16) (hv : ValidB s) :
    normState s = s := by
  have h := beBytes_packState hv
  rw [hlen] at h
  simpa [normState, unpackState] using h

theorem rconAux_lt (n : Nat) : rconAux n < 256 := by
  induction n with
  | zero => simp [rconAux]
  | succ n _ => exact xtime_lt _

/-- A 4-byte word of valid bytes. -/
def WfWord (w : List Nat) : Prop := w.length = 4 ∧ ValidB w

theorem wfWord_default : WfWord [0, 0, 0, 0] := by
  refine ⟨rfl, ?_⟩
  intro b hb
  have hb0 : b = 0 := by simpa using hb
  omega

theorem wfWord_rotWord {w : List Nat} (h : WfWord w) : WfWord (rotWord w) := by
  obtain ⟨hl, hv⟩ := h
  rcases w with _ | ⟨a, w⟩
  · simp at hl
  rcases w with _ | ⟨b, w⟩
  · simp at hl
  rcases w with _ | ⟨c, w⟩
  · simp at hl
  rcases w with _ | ⟨d, w⟩
  · simp at hl
  rcases w with _ | ⟨e, w⟩
  case cons.cons.cons.cons.cons =>
    simp at hl
  refine ⟨rfl, ?_⟩
  intro x hx
  simp only [rotWord, List.mem_cons] at hx
  rcases hx with h1 | h1 | h1 | h1 | h1
  · subst h1; exact hv _ (by simp)
  · subst h1; exact hv _ (by simp)
  · subst h1; exact hv _ (by simp)
  · subst h1; exact hv _ (by simp)
  · cases h1

theorem wfWord_subWord {w : List Nat} (h : WfWord w) : WfWord (subWord w) := by
  refine ⟨?_, ?_⟩
  · rw [subWord, List.length_map, h.1]
  · intro x hx
    simp only [subWord, List.mem_map] at hx
    obtain ⟨y, _, rfl⟩ := hx
    exact subB_lt y

theorem validB_xorWord {a b : List Nat} (ha : ValidB a) (hb : ValidB b) :
    ValidB (xorWord a b) := validB_xorBytes ha hb

theorem wfWord_xorWord {a b : List Nat} (ha : WfWord a) (hb : WfWord b) :
    WfWord (xorWord a b) := by
  refine ⟨?_, validB_xorWord ha.2 hb.2⟩
  simp only [xorWord, List.length_zipWith, ha.1, hb.1]
  omega

/-- Invariant of the (reversed) schedule during expansion. -/
def WfSched (rev : List (List Nat)) : Prop := ∀ w ∈ rev, WfWord w

theorem wfSched_headD {rev : List (List Nat)} (h : WfSched rev) :
    WfWord (rev.headD [0, 0, 0, 0]) := by
  cases rev with
  | nil => exact wfWord_default
  | cons w ws => exact h w (by simp)

theorem wfSched_getD {rev : List (List Nat)} (h : WfSched rev) (i : Nat) :
    WfWord (rev.getD i [0, 0, 0, 0]) := by
  rcases Nat.lt_or_ge i rev.length with hi | hi
  · rw [List.getD_eq_getElem _ _ hi]
    exact h _ (List.getElem_mem hi)
  · rw [List.getD_eq_default _ _ hi]
    exact wfWord_default

theorem wfWord_nextWord {nk : Nat} {rev : List (List Nat)} (h : WfSched rev) :
    WfWord (nextWord nk rev) := by
  have hrc : WfWord [rconByte (rev.length / nk), 0, 0, 0] := by
    refine ⟨rfl, ?_⟩
    intro b hb
    rcases List.mem_cons.1 hb with h1 | hb
    · subst h1; exact rconAux_lt _
    rcases List.mem_cons.1 hb with h1 | hb
    · omega
    rcases List.mem_cons.1 hb with h1 | hb
    · omega
    rcases List.mem_cons.1 hb with h1 | hb
    · omega
    · cases hb
  simp only [nextWord]
  apply wfWord_xorWord (wfSched_getD h _)
  split
  · exact wfWord_xorWord (wfWord_subWord (wfWord_rotWord (wfSched_headD h))) hrc
  · split
    · exact wfWord_subWord (wfSched_headD h)
    · exact wfSched_headD h

theorem expandAux_length (nk : Nat) :
    ∀ (n : Nat) (rev : List (List Nat)),
      (expandAux nk n rev).length = n + rev.length
  | 0, rev => by simp [expandAux]
  | n + 1, rev => by
      rw [expandAux, expandAux_length nk n]
      simp only [List.length_cons]
      omega

theorem expandAux_wf (nk : Nat) :
    ∀ (n : Nat) (rev : List (List Nat)), WfSched rev →
      WfSched (expandAux nk n rev)
  | 0, _, h => h
  | n + 1, rev, h => by
      rw [expandAux]
      apply expandAux_wf nk n
      intro w hw
      rcases List.mem_cons.1 hw with hw | hw
      · subst hw; exact wfWord_nextWord h
      · exact h w hw

theorem chunk4_wf : ∀ (l : List Nat), ValidB l → WfSched (chunk4 l)
  | [], _ => by intro w hw; simp [chunk4] at hw
  | [b0], _ => by intro w hw; simp [chunk4] at hw
  | [b0, b1], _ => by intro w hw; simp [chunk4] at hw
  | [b0, b1, b2], _ => by intro w hw; simp [chunk4] at hw
  | b0 :: b1 :: b2 :: b3 :: rest, h => by
      intro w hw
      simp only [chunk4] at hw
      rcases List.mem_cons.1 hw with hw | hw
      · subst hw
        refine ⟨rfl, ?_⟩
        intro x hx
        rcases List.mem_cons.1 hx with h1 | hx
        · subst h1; exact h _ (by simp)
        rcases List.mem_cons.1 hx with h1 | hx
        · subst h1; exact h _ (by simp)
        rcases List.mem_cons.1 hx with h1 | hx
        · subst h1; exact h _ (by simp)
        rcases List.mem_cons.1 hx with h1 | hx
        · subst h1; exact h _ (by simp)
        · cases hx
      · exact chunk4_wf rest (fun x hx => h x (by simp [hx])) w hw

theorem chunk4_length : ∀ (l : List Nat), (chunk4 l).length = l.length / 4
  | [] => rfl
  | [b0] => by simp [chunk4]
  | [b0, b1] => by simp [chunk4]
  | [b0, b1, b2] => by simp [chunk4]
  | b0 :: b1 :: b2 :: b3 :: rest => by
      simp only [chunk4, List.length_cons, chunk4_length rest]
      omega

theorem flatten4_length {l : List (List Nat)} (h : ∀ w ∈ l, w.length = 4) :
    l.flatten.length = 4 * l.length := by
  induction l with
  | nil => simp
  | cons w ws ih =>
      simp only [List.flatten_cons, List.length_append, List.length_cons,
        h w (by simp), ih (fun x hx => h x (by simp [hx]))]
      omega

theorem validB_flatten {l : List (List Nat)} (h : ∀ w ∈ l, ValidB w) :
    ValidB l.flatten := by
  intro b hb
  rw [List.mem_flatten] at hb
  obtain ⟨w, hw, hbw⟩ := hb
  exact h w hw b hbw

/-- For a 32-byte valid key, `mkAES` produces a well-formed AES-256
cipher (15 round keys of 16 valid bytes). -/
theorem mkAES_wf {key : List Nat} (hk : key.length = 32) (hv : ValidB key) :
    WfAES (mkAES key) := by
  have hnk : key.length / 4 = 8 := by omega
  have hsched : WfSched (keyExpansion key) := by
    intro w hw
    rw [keyExpansion, List.mem_reverse] at hw
    exact expandAux_wf _ _ _ (fun x hx => chunk4_wf key hv x (List.mem_reverse.1 hx)) w hw
  have hcount : (keyExpansion key).length = 60 := by
    rw [keyExpansion]
    simp only [List.length_reverse]
    rw [expandAux_length]
    simp only [List.length_reverse]
    rw [chunk4_length key, hk]
  constructor
  · simp [mkAES]
  · intro rk hrk
    simp only [mkAES, List.mem_map, List.mem_range] at hrk
    obtain ⟨r, hr, rfl⟩ := hrk
    rw [hnk] at hr
    have hlen4 : (((keyExpansion key).drop (4 * r)).take 4).length = 4 := by
      rw [List.length_take, List.length_drop, hcount]
      omega
    have hmem : ∀ w ∈ ((keyExpansion key).drop (4 * r)).take 4, WfWord w := by
      intro w hw
      exact hsched w (List.mem_of_mem_drop (List.mem_of_mem_take hw))
    constructor
    · rw [flatten4_length (fun w hw => (hmem w hw).1), hlen4]
    · exact validB_flatten (fun w hw => (hmem w hw).2)



-- FIPS 197 appendix C.3 (AES-256) sanity check: key 00..1f, plaintext
-- 00112233445566778899aabbccddeeff.
set_option maxRecDepth 1000000 in
example :
    encryptBlock (mkAES ((List.range 32)))
      [0x00, 0x11, 0x22, 0x33, 0x44, 0x55, 0x66, 0x77,
       0x88, 0x99, 0xaa, 0xbb, 0xcc, 0xdd, 0xee, 0xff] =
      [0x8e, 0xa2, 0xb7, 0xca, 0x51, 0x67, 0x45, 0xbf,
       0xea, 0xfc, 0x49, 0x90, 0x4b, 0x49, 0x60, 0x89] := by
  decide


/-! ## crypto/cipher — GCM (nonce size 12, tag size 16)

`cipher.NewGCM` over the AES block; `Seal(nonce, nonce, plaintext,
nil)` returns `nonce ‖ CTR-ciphertext ‖ tag` and `Open` recomputes the
tag over the ciphertext, compares (constant time in Go), and decrypts.
GF(2^128) elements are `Nat` below `2^128` in GCM's reflected
convention (bit 0 of the spec is the most significant bit here, as in
the byte-wise big-endian packing). -/

/-- One shift step of the GHASH multiplication: divide by `x`, reducing
with the GCM polynomial `R = 0xE1…` when a bit falls off. -/
def gfStep (v : Nat) : Nat :=
  if v % 2 = 1 then v / 2 ^^^ 0xE1000000000000000000000000000000 else v / 2

def gf128mulAux : Nat → Nat → Nat → Nat → Nat
  | 0, _, _, z => z
  | n + 1, x, v, z =>
      gf128mulAux n x (gfStep v) (if x.testBit n then z ^^^ v else z)

/-- GF(2^128) product of a block `x` with the hash key `v` (128
iterations over the bits of `x`, most significant first). -/
def gf128mul (x v : Nat) : Nat := gf128mulAux 128 x v 0

/-- GHASH: fold `y ← (y ^ blockᵢ) · H` over the 128-bit blocks. -/
def ghashBlocks (h : Nat) (blocks : List Nat) : Nat :=
  blocks.foldl (fun y b => gf128mul (y ^^^ b) h) 0

/-- Zero-pad to a multiple of 16 bytes. -/
def pad16 (l : List Nat) : List Nat :=
  l ++ List.replicate ((16 - l.length % 16) % 16) 0

/-- Split into 16-byte blocks (fuel-based like `chunks64`). -/
def chunks16Aux : Nat → List Nat → List (List Nat)
  | 0, _ => []
  | _, [] => []
  | fuel + 1, l => l.take 16 :: chunks16Aux fuel (l.drop 16)

def chunks16 (l : List Nat) : List (List Nat) := chunks16Aux l.length l

/-- The authentication tag for associated data `nil` and ciphertext
`ct`: `E(J0) ^ GHASH_H(pad(ct) ‖ len64(A)=0 ‖ len64(ct))`. -/
def gcmTag (aes : AESCipher) (nonce ct : List Nat) : List Nat :=
  let h := packState (encryptBlock aes zero16)
  let j0 := nonce ++ [0, 0, 0, 1]
  let sVal := ghashBlocks h ((chunks16 (pad16 ct)).map packState ++ [8 * ct.length])
  xorBytes (encryptBlock aes j0) (beBytes 16 sVal)

/-- `gcmInc32`: increment the last 32 bits of the counter block. -/
def gcmInc32 (b : List Nat) : List Nat :=
  b.take 12 ++ beBytes 4 ((packState (b.drop 12) + 1) % 4294967296)

/-- CTR keystream: `E(inc32(J0)), E(inc32²(J0)), …` flattened. -/
def gcmKeystream (aes : AESCipher) (j0 : List Nat) (n : Nat) : List Nat :=
  ((List.range n).map (fun i => encryptBlock aes (gcmInc32^[i + 1] j0))).flatten

/-- `aesGCM.Seal(nonce, nonce, plaintext, nil)`. -/
def gcmSeal (aes : AESCipher) (nonce pt : List Nat) : List Nat :=
  let j0 := nonce ++ [0, 0, 0, 1]
  let ct := xorBytes pt (gcmKeystream aes j0 ((pt.length + 15) / 16))
  nonce ++ ct ++ gcmTag aes nonce ct

/-- `aesGCM.Open(nil, nonce, ciphertext, nil)`: `none` is Go's
`errOpen` ("message authentication failed"), returned both for a short
input and for a tag mismatch. -/
def gcmOpen (aes : AESCipher) (nonce ctt : List Nat) : Option (List Nat) :=
  if ctt.length < 16 then none
  else
    let ct := ctt.take (ctt.length - 16)
    let tag := ctt.drop (ctt.length - 16)
    if gcmTag aes nonce ct = tag then
      some (xorBytes ct (gcmKeystream aes (nonce ++ [0, 0, 0, 1]) ((ct.length + 15) / 16)))
    else none

theorem length_gcmKeystream (aes : AESCipher) (j0 : List Nat) (n : Nat) :
    (gcmKeystream aes j0 n).length = 16 * n := by
  unfold gcmKeystream
  induction n with
  | zero => simp
  | succ k ih =>
      rw [List.range_succ, List.map_append, List.flatten_append]
      simp only [List.length_append, ih, List.map_cons, List.map_nil,
        List.flatten_cons, List.flatten_nil, List.append_nil,
        (encryptBlock_len_valid aes _).1]
      omega

theorem validB_gcmKeystream (aes : AESCipher) (j0 : List Nat) (n : Nat) :
    ValidB (gcmKeystream aes j0 n) := by
  intro b hb
  unfold gcmKeystream at hb
  rw [List.mem_flatten] at hb
  obtain ⟨l, hl, hbl⟩ := hb
  rw [List.mem_map] at hl
  obtain ⟨i, _, rfl⟩ := hl
  exact (encryptBlock_len_valid aes _).2 b hbl

theorem length_gcmTag (aes : AESCipher) (nonce ct : List Nat) :
    (gcmTag aes nonce ct).length = 16 := by
  simp only [gcmTag]
  rw [length_xorBytes, (encryptBlock_len_valid aes _).1, length_beBytes]
  omega

theorem validB_gcmTag (aes : AESCipher) (nonce ct : List Nat) :
    ValidB (gcmTag aes nonce ct) := by
  simp only [gcmTag]
  exact validB_xorBytes (encryptBlock_len_valid aes _).2 (validB_beBytes _ _)

theorem xorBytes_cancel : ∀ (a b : List Nat), a.length ≤ b.length →
    xorBytes (xorBytes a b) b = a
  | [], b, _ => by cases b <;> rfl
  | x :: xs, [], h => by simp at h
  | x :: xs, y :: ys, h => by
      simp only [xorBytes, List.zipWith_cons_cons]
      rw [show x ^^^ y ^^^ y = x from by
        rw [Nat.xor_assoc, Nat.xor_self, Nat.xor_zero]]
      have hrec := xorBytes_cancel xs ys (by simpa using h)
      simp only [xorBytes] at hrec
      rw [hrec]

theorem length_xorBytes_keystream (aes : AESCipher) (j0 pt : List Nat) :
    (xorBytes pt (gcmKeystream aes j0 ((pt.length + 15) / 16))).length = pt.length := by
  rw [length_xorBytes, length_gcmKeystream]
  omega

/-- Opening a sealed payload under the same cipher and nonce recovers
the plaintext: the recomputed tag is the sealed tag by construction,
and XOR-ing the keystream twice is the identity. -/
theorem gcmOpen_gcmSeal (aes : AESCipher) (nonce pt : List Nat) :
    gcmOpen aes nonce ((gcmSeal aes nonce pt).drop nonce.length) = some pt := by
  have hdrop :
      (gcmSeal aes nonce pt).drop nonce.length =
        xorBytes pt (gcmKeystream aes (nonce ++ [0, 0, 0, 1]) ((pt.length + 15) / 16)) ++
          gcmTag aes nonce
            (xorBytes pt (gcmKeystream aes (nonce ++ [0, 0, 0, 1]) ((pt.length + 15) / 16))) := by
    simp only [gcmSeal]
    rw [List.append_assoc, List.drop_left]
  set ct := xorBytes pt (gcmKeystream aes (nonce ++ [0, 0, 0, 1]) ((pt.length + 15) / 16)) with hct
  have hctlen : ct.length = pt.length := length_xorBytes_keystream aes _ pt
  rw [hdrop]
  unfold gcmOpen
  have hlen : (ct ++ gcmTag aes nonce ct).length = ct.length + 16 := by
    rw [List.length_append, length_gcmTag]
  rw [if_neg (by omega)]
  have hsub : (ct ++ gcmTag aes nonce ct).length - 16 = ct.length := by omega
  rw [hsub]
  rw [List.take_left, List.drop_left]
  rw [if_pos rfl]
  rw [hct, hctlen]
  rw [xorBytes_cancel _ _ (by rw [length_gcmKeystream]; omega)]



-- AES-256-GCM test vector (zero key, zero nonce, 16 zero bytes of
-- plaintext): ciphertext cea7403d…, tag d0d1c8a7….
set_option maxRecDepth 1000000 in
example :
    gcmSeal (mkAES (List.replicate 32 0)) (List.replicate 12 0)
      (List.replicate 16 0) =
      List.replicate 12 0 ++
      [0xce, 0xa7, 0x40, 0x3d, 0x4d, 0x60, 0x6b, 0x6e,
       0x07, 0x4e, 0xc5, 0xd3, 0xba, 0xf3, 0x9d, 0x18] ++
      [0xd0, 0xd1, 0xc8, 0xa7, 0x99, 0x99, 0x6b, 0xf0,
       0x26, 0x5b, 0x98, 0xb5, 0xd4, 0x8a, 0xb9, 0x19] := by
  decide


/-! ## Errors

The package declares the sentinels `ErrInitiation`, `ErrEncryption`,
`ErrCookie`, `ErrSecretMissing`; the libraries contribute
`http.ErrNoCookie`, `base64.CorruptInputError` (offset elided),
`aes.KeySizeError`, GCM's `errOpen`, and `strconv`'s
`ErrSyntax`/`ErrRange` (reached through a `*NumError`, modelled as a
`wrap`).  `fmt.Errorf` with one `%w` verb is `wrap` (the surrounding
text collapsed to one message string), with two `%w` verbs `wrap2`.
`GoErr.is` is `errors.Is` (structural equality stands in for Go's
pointer equality of sentinels). -/
inductive GoErr where
  | errInitiation : GoErr
  | errEncryption : GoErr
  | errCookie : GoErr
  | errSecretMissing : GoErr
  | errNoCookie : GoErr
  | base64Corrupt : GoErr
  | aesKeySize (n : Nat) : GoErr
  | gcmOpenErr : GoErr
  | atoiSyntax : GoErr
  | atoiRange : GoErr
  | errMsg (s : String) : GoErr
  | wrap (msg : String) (e : GoErr) : GoErr
  | wrap2 (a b : GoErr) : GoErr
deriving DecidableEq

deriving instance DecidableEq for Except

/-- `errors.Is`: equality at any level of the unwrap tree. -/
def GoErr.is (e t : GoErr) : Bool :=
  match e with
  | .wrap m inner => GoErr.wrap m inner == t || GoErr.is inner t
  | .wrap2 a b => GoErr.wrap2 a b == t || GoErr.is a t || GoErr.is b t
  | e => e == t

/-! ## net/http — cookies

`Cookie` mirrors `http.Cookie` (the struct this package's functions
take); `time.Time` is `GoTime`, absolute seconds since January 1 of
year 1 UTC (Go's zero `Time` is `⟨0⟩`).  `cookieString` is
`http.Cookie.String`, `setCookie` is `http.SetCookie` (which drops a
cookie whose serialization is empty), and `requestCookie` is
`http.Request.Cookie` over the request's cookie jar, modelled as a
`(name, raw value)` list. -/

structure GoTime where
  absSec : Int
deriving DecidableEq

/-- Proleptic-Gregorian civil date `(y, m, d)` from days since
1970-01-01 (extensionally Go's `absDate`). -/
def civilFromDays (z : Int) : Int × Nat × Nat :=
  let zz := z + 719468
  let era : Int := zz.ediv 146097
  let doe : Nat := (zz - era * 146097).toNat
  let yoe : Nat := (doe - doe / 1460 + doe / 36524 - doe / 146096) / 365
  let doy : Nat := doe - (365 * yoe + yoe / 4 - yoe / 100)
  let mp : Nat := (5 * doy + 2) / 153
  let d : Nat := doy - (153 * mp + 2) / 5 + 1
  let m : Nat := if mp < 10 then mp + 3 else mp - 9
  let y : Int := (yoe : Int) + era * 400 + (if m ≤ 2 then 1 else 0)
  (y, m, d)

/-- Days between 0001-01-01 and 1970-01-01. -/
def unixEpochDays : Int := 719162

def GoTime.year (t : GoTime) : Int :=
  (civilFromDays (t.absSec.ediv 86400 - unixEpochDays)).1

/-- Go `validCookieExpires`: `t.Year() >= 1601`. -/
def validCookieExpires (t : GoTime) : Bool := decide (1601 ≤ t.year)

/-- Fuel-based decimal digits (ASCII) of a natural, most significant
first; fuel `n + 1` always suffices. -/
def decDigitsAux : Nat → Nat → List Nat
  | 0, _ => []
  | fuel + 1, n =>
      if n < 10 then [48 + n]
      else decDigitsAux fuel (n / 10) ++ [48 + n % 10]

def decDigits (n : Nat) : List Nat := decDigitsAux (n + 1) n

def pad2 (n : Nat) : List Nat := [48 + n / 10 % 10, 48 + n % 10]

/-- Year with Go's `"2006"` padding: zero-padded to width 4, full
digits beyond. -/
def yearDigits (y : Nat) : List Nat :=
  if y < 10000 then
    [48 + y / 1000 % 10, 48 + y / 100 % 10, 48 + y / 10 % 10, 48 + y % 10]
  else decDigits y

def dayName (wd : Nat) : List Nat :=
  (["Sun", "Mon", "Tue", "Wed", "Thu", "Fri", "Sat"].map ascii).getD wd []

def monName (m : Nat) : List Nat :=
  (["Jan", "Feb", "Mar", "Apr", "May", "Jun", "Jul", "Aug", "Sep", "Oct",
    "Nov", "Dec"].map ascii).getD (m - 1) []

/-- `t.UTC().Format(http.TimeFormat)`:
`"Mon, 02 Jan 2006 15:04:05 GMT"`. -/
def httpTimeFormat (t : GoTime) : List Nat :=
  let z := t.absSec.ediv 86400 - unixEpochDays
  let ymd := civilFromDays z
  let wd := ((z + 4).emod 7).toNat
  let sod := (t.absSec.emod 86400).toNat
  dayName wd ++ ascii ", " ++ pad2 ymd.2.2 ++ [32] ++ monName ymd.2.1 ++ [32] ++
    yearDigits ymd.1.toNat ++ [32] ++ pad2 (sod / 3600) ++ [58] ++
    pad2 (sod / 60 % 60) ++ [58] ++ pad2 (sod % 60) ++ ascii " GMT"

structure Cookie where
  Name : List Nat := []
  Value : List Nat := []
  Path : List Nat := []
  Domain : List Nat := []
  Expires : GoTime := ⟨0⟩
  RawExpires : List Nat := []
  MaxAge : Int := 0
  Secure : Bool := false
  HttpOnly : Bool := false
  SameSite : Nat := 0
  Raw : List Nat := []
  Unparsed : List (List Nat) := []
deriving DecidableEq

/-- RFC 7230 `token` byte (Go `httpguts.IsTokenRune`). -/
def isTokenByte (c : Nat) : Bool :=
  (decide (48 ≤ c) && decide (c ≤ 57)) ||
  (decide (65 ≤ c) && decide (c ≤ 90)) ||
  (decide (97 ≤ c) && decide (c ≤ 122)) ||
  c == 33 || c == 35 || c == 36 || c == 37 || c == 38 || c == 39 ||
  c == 42 || c == 43 || c == 45 || c == 46 || c == 94 || c == 95 ||
  c == 96 || c == 124 || c == 126

def isCookieNameValid (raw : List Nat) : Bool :=
  !raw.isEmpty && raw.all isTokenByte

def validCookieValueByte (b : Nat) : Bool :=
  decide (32 ≤ b) && decide (b < 127) && b != 34 && b != 59 && b != 92

/-- `sanitizeCookieValue`: strip invalid bytes, quote when the value
contains a space or comma. -/
def sanitizeCookieValue (v : List Nat) : List Nat :=
  let fv := v.filter validCookieValueByte
  if fv.isEmpty then fv
  else if fv.contains 32 || fv.contains 44 then [34] ++ fv ++ [34]
  else fv

def validCookiePathByte (b : Nat) : Bool :=
  decide (32 ≤ b) && decide (b < 127) && b != 59

def sanitizeCookiePath (v : List Nat) : List Nat := v.filter validCookiePathByte

/-- The scanning loop of Go `isCookieDomainName`; state is
`(last byte, seen a letter, current label length)`; `none` is an early
`return false`. -/
def cookieDomainLoop : List Nat → Nat → Bool → Nat → Option (Nat × Bool × Nat)
  | [], last, ok, partlen => some (last, ok, partlen)
  | c :: rest, last, ok, partlen =>
      if (decide (65 ≤ c) && decide (c ≤ 90)) || (decide (97 ≤ c) && decide (c ≤ 122)) then
        cookieDomainLoop rest c true (partlen + 1)
      else if decide (48 ≤ c) && decide (c ≤ 57) then
        cookieDomainLoop rest c ok (partlen + 1)
      else if c == 45 then
        if last == 46 then none else cookieDomainLoop rest c ok (partlen + 1)
      else if c == 46 then
        if last == 46 || last == 45 || decide (63 < partlen) || partlen == 0 then none
        else cookieDomainLoop rest c ok 0
      else none

def isCookieDomainName (s : List Nat) : Bool :=
  if s.isEmpty || decide (255 < s.length) then false
  else
    let s1 := if s.headD 0 == 46 then s.tail else s
    match cookieDomainLoop s1 46 false 0 with
    | none => false
    | some (last, ok, partlen) =>
        if last == 45 || decide (63 < partlen) then false else ok

def splitOnDot : List Nat → List (List Nat)
  | [] => [[]]
  | c :: rest =>
      if c == 46 then [] :: splitOnDot rest
      else
        match splitOnDot rest with
        | p :: ps => (c :: p) :: ps
        | [] => [[c]]

def parseDigits (l : List Nat) : Nat := l.foldl (fun a d => a * 10 + (d - 48)) 0

/-- One dotted-decimal field of `net.ParseIP`'s IPv4 form: decimal,
0–255, no leading zero. -/
def octetOk (p : List Nat) : Bool :=
  !p.isEmpty && p.all (fun c => decide (48 ≤ c) && decide (c ≤ 57)) &&
  (p.length == 1 || p.headD 0 != 48) && decide (parseDigits p ≤ 255)

def validIPv4 (s : List Nat) : Bool :=
  match splitOnDot s with
  | [a, b, c, d] => octetOk a && octetOk b && octetOk c && octetOk d
  | _ => false

/-- Go `validCookieDomain`: a domain name, or an IP (without `:`). -/
def validCookieDomain (v : List Nat) : Bool :=
  isCookieDomainName v || (validIPv4 v && !v.contains 58)

def sameSiteAttr : Nat → List Nat
  | 4 => ascii "; SameSite=None"
  | 2 => ascii "; SameSite=Lax"
  | 3 => ascii "; SameSite=Strict"
  | _ => []

/-- `http.Cookie.String`: empty for an invalid name, otherwise
`name=value` followed by the attributes. -/
def cookieString (c : Cookie) : List Nat :=
  if !isCookieNameValid c.Name then []
  else
    c.Name ++ [61] ++ sanitizeCookieValue c.Value ++
    (if 0 < c.Path.length then ascii "; Path=" ++ sanitizeCookiePath c.Path else []) ++
    (if 0 < c.Domain.length then
       (if validCookieDomain c.Domain then
          ascii "; Domain=" ++
            (if c.Domain.headD 0 == 46 then c.Domain.tail else c.Domain)
        else [])
     else []) ++
    (if validCookieExpires c.Expires then
       ascii "; Expires=" ++ httpTimeFormat c.Expires
     else []) ++
    (if 0 < c.MaxAge then ascii "; Max-Age=" ++ decDigits c.MaxAge.toNat
     else if c.MaxAge < 0 then ascii "; Max-Age=0" else []) ++
    (if c.HttpOnly then ascii "; HttpOnly" else []) ++
    (if c.Secure then ascii "; Secure" else []) ++
    sameSiteAttr c.SameSite

/-- `http.SetCookie`: emit only when the serialization is non-empty. -/
def setCookie (w : List Cookie) (c : Cookie) : List Cookie :=
  if (cookieString c).isEmpty then w else w ++ [c]

/-- `http.Request.Cookie(name)` over the request's cookie jar: the
first cookie with that name, `ErrNoCookie` (`none`) when absent. -/
def requestCookie (r : List (List Nat × List Nat)) (name : List Nat) :
    Option (List Nat) :=
  match r.find? (fun p => p.1 == name) with
  | some p => some p.2
  | none => none

/-! ## strconv.Atoi and `%d` formatting -/

/-- `strconv.Atoi`: optional sign, decimal digits, 64-bit range; on a
syntax error the value is 0, on a range error the clamped bound — in
both cases alongside the `*NumError`. -/
def atoi (s : List Nat) : Int × Option GoErr :=
  match s with
  | [] => (0, some (GoErr.wrap "strconv.Atoi" GoErr.atoiSyntax))
  | c :: rest =>
      let neg : Bool := c == 45
      let digits := if c == 45 || c == 43 then rest else s
      if digits.isEmpty ||
          !digits.all (fun d => decide (48 ≤ d) && decide (d ≤ 57)) then
        (0, some (GoErr.wrap "strconv.Atoi" GoErr.atoiSyntax))
      else
        let v := parseDigits digits
        if neg then
          if 9223372036854775808 < v then
            (-9223372036854775808, some (GoErr.wrap "strconv.Atoi" GoErr.atoiRange))
          else (-(v : Int), none)
        else
          if 9223372036854775807 < v then
            (9223372036854775807, some (GoErr.wrap "strconv.Atoi" GoErr.atoiRange))
          else ((v : Int), none)

/-- `fmt.Sprintf("%d", i)` for a Go `int`. -/
def intDec (i : Int) : List Nat :=
  if i < 0 then 45 :: decDigits (-i).toNat else decDigits i.toNat

/-- `strings.Cut(s, ":")`: split at the first colon. -/
def cutColon : List Nat → Option (List Nat × List Nat)
  | [] => none
  | c :: rest =>
      if c = 58 then some ([], rest)
      else (cutColon rest).map (fun p => (c :: p.1, p.2))

/-! ## package cookie — the repository's functions (`cookie.go`)

The `http.ResponseWriter` is the list of cookies emitted so far; each
writer returns the updated response alongside the Go `error`.  Go
passes `cookie` by value, so the caller's cookie is never mutated: the
modified copy is what reaches `http.SetCookie`.  The random nonce read
from `rand.Reader` in `WriteEncrypted` is the explicit `nonce`
argument (`aesGCM.NonceSize()` = 12 bytes). -/

/-- `Write`: base64-encode the value, reject serializations over 4096
bytes (`fmt.Errorf("%w: cookie value too long", ErrCookie)`), else
`http.SetCookie`. -/
def Write (w : List Cookie) (cookie : Cookie) : List Cookie × Option GoErr :=
  let c := { cookie with Value := b64encode cookie.Value }
  if 4096 < (cookieString c).length then
    (w, some (GoErr.wrap "cookie value too long" GoErr.errCookie))
  else
    (setCookie w c, none)

/-- `Read`: look up the named cookie, base64-decode its value. -/
def Read (r : List (List Nat × List Nat)) (name : List Nat) :
    Except GoErr (List Nat) :=
  match requestCookie r name with
  | none => .error (GoErr.wrap "not found" GoErr.errNoCookie)
  | some raw =>
      match b64decode raw with
      | none => .error (GoErr.wrap "cannot decode" GoErr.base64Corrupt)
      | some value => .ok value

/-- `WriteSigned`: HMAC-SHA256 over name then value, tag prepended to
the value, then `Write`. -/
def WriteSigned (w : List Cookie) (cookie : Cookie) (secretKey : List Nat) :
    List Cookie × Option GoErr :=
  if secretKey.length = 0 then (w, some GoErr.errSecretMissing)
  else
    let signature := hmacSha256 secretKey (cookie.Name ++ cookie.Value)
    Write w { cookie with Value := signature ++ cookie.Value }

/-- `ReadSigned`: transport-read, split tag (first `sha256.Size` = 32
bytes) from value, recompute and compare (`hmac.Equal` is constant-time
in Go; functionally byte equality). -/
def ReadSigned (r : List (List Nat × List Nat)) (name secretKey : List Nat) :
    Except GoErr (List Nat) :=
  if secretKey.length = 0 then .error GoErr.errSecretMissing
  else
    match Read r name with
    | .error e => .error (GoErr.wrap2 GoErr.errCookie e)
    | .ok signedValue =>
        if signedValue.length < 32 then
          .error (GoErr.wrap2 GoErr.errCookie (GoErr.errMsg "signature wrong length"))
        else
          let signature := signedValue.take 32
          let value := signedValue.drop 32
          let expectedSignature := hmacSha256 secretKey (name ++ value)
          if signature = expectedSignature then .ok value
          else .error (GoErr.wrap2 GoErr.errCookie (GoErr.errMsg "signature mismatch"))

/-- `aes.NewCipher`: 16/24/32-byte keys only, otherwise
`KeySizeError(len(key))`. -/
def aesNewCipher (key : List Nat) : Except GoErr AESCipher :=
  if key.length = 16 ∨ key.length = 24 ∨ key.length = 32 then .ok (mkAES key)
  else .error (GoErr.aesKeySize key.length)

/-- `WriteEncrypted`: seal `"<userID>:<value>"` under AES-GCM with a
fresh nonce, store `nonce ‖ ciphertext ‖ tag` as the value, then
`Write`.  (`cipher.NewGCM` cannot fail on an AES block.) -/
def WriteEncrypted (w : List Cookie) (userID : Int) (cookie : Cookie)
    (secretKey nonce : List Nat) : List Cookie × Option GoErr :=
  match aesNewCipher secretKey with
  | .error e => (w, some (GoErr.wrap "unable to create new cypher block for write" e))
  | .ok aes =>
      let plaintext := intDec userID ++ [58] ++ cookie.Value
      Write w { cookie with Value := gcmSeal aes nonce plaintext }

/-- `ReadEncrypted`: transport-read, split nonce, GCM-open, split the
plaintext at the first `:`, parse the identity; on a parse failure the
un-parsed value string is still returned alongside the error. -/
def ReadEncrypted (r : List (List Nat × List Nat)) (name secretKey : List Nat) :
    Int × List Nat × Option GoErr :=
  match Read r name with
  | .error e => (0, [], some (GoErr.wrap "unable to read encrypted cookie" e))
  | .ok encryptedValue =>
      match aesNewCipher secretKey with
      | .error e =>
          (0, [], some (GoErr.wrap "unable to create new cypher block for read" e))
      | .ok aes =>
          if encryptedValue.length < 12 then
            (0, [], some (GoErr.wrap2 GoErr.errCookie (GoErr.errMsg "encrypted value too short")))
          else
            match gcmOpen aes (encryptedValue.take 12) (encryptedValue.drop 12) with
            | none => (0, [], some (GoErr.wrap "unable to decrypt cookie" GoErr.gcmOpenErr))
            | some plaintext =>
                match cutColon plaintext with
                | none =>
                    (0, [], some (GoErr.wrap2 GoErr.errCookie (GoErr.errMsg "unable to split plaintext")))
                | some uv =>
                    match atoi uv.1 with
                    | (id, none) => (id, uv.2, none)
                    | (_, some e) => (0, uv.2, some (GoErr.wrap2 GoErr.errCookie e))

/-! ## Support lemmas for the claims -/

theorem decDigitsAux_range : ∀ (fuel n : Nat), n < fuel →
    ∀ d ∈ decDigitsAux fuel n, 48 ≤ d ∧ d ≤ 57
  | fuel + 1, n, _, d, hd => by
      rw [decDigitsAux] at hd
      split at hd
      · simp only [List.mem_singleton] at hd
        omega
      · rcases List.mem_append.1 hd with h | h
        · have hn : n / 10 < fuel := by omega
          exact decDigitsAux_range fuel (n / 10) hn d h
        · simp only [List.mem_singleton] at h
          omega

theorem decDigitsAux_ne_nil : ∀ (fuel n : Nat), n < fuel →
    decDigitsAux fuel n ≠ []
  | fuel + 1, n, _ => by
      rw [decDigitsAux]
      split
      · simp
      · simp

theorem parseDigits_decDigitsAux : ∀ (fuel n acc : Nat), n < fuel →
    (decDigitsAux fuel n).foldl (fun a d => a * 10 + (d - 48)) acc =
      acc * 10 ^ (decDigitsAux fuel n).length + n
  | fuel + 1, n, acc, _ => by
      rw [decDigitsAux]
      split
      · simp only [List.foldl_cons, List.foldl_nil, List.length_cons,
          List.length_nil]
        omega
      · rw [List.foldl_append, List.length_append,
          parseDigits_decDigitsAux fuel (n / 10) acc (by omega)]
        simp only [List.foldl_cons, List.foldl_nil, List.length_cons,
          List.length_nil]
        have h10 : 48 + n % 10 - 48 = n % 10 := by omega
        rw [h10, pow_succ]
        have hc : (acc * 10 ^ (decDigitsAux fuel (n / 10)).length + n / 10) * 10 +
            n % 10 =
            acc * (10 ^ (decDigitsAux fuel (n / 10)).length * 10) +
              (n / 10 * 10 + n % 10) := by ring
        have hdm : n / 10 * 10 + n % 10 = n := by omega
        rw [hc, hdm]

theorem decDigits_range (n : Nat) : ∀ d ∈ decDigits n, 48 ≤ d ∧ d ≤ 57 :=
  decDigitsAux_range (n + 1) n (by omega)

theorem decDigits_ne_nil (n : Nat) : decDigits n ≠ [] :=
  decDigitsAux_ne_nil (n + 1) n (by omega)

theorem parseDigits_decDigits (n : Nat) : parseDigits (decDigits n) = n := by
  have h := parseDigits_decDigitsAux (n + 1) n 0 (by omega)
  simpa [parseDigits, decDigits] using h

theorem validB_decDigits (n : Nat) : ValidB (decDigits n) := by
  intro d hd
  have := decDigits_range n d hd
  omega

theorem decDigits_ne_58 (n : Nat) : 58 ∉ decDigits n := by
  intro h
  have := decDigits_range n 58 h
  omega

theorem validB_intDec (i : Int) : ValidB (intDec i) := by
  unfold intDec
  split
  · exact validB_cons (by omega) (validB_decDigits _)
  · exact validB_decDigits _

theorem intDec_ne_58 (i : Int) : 58 ∉ intDec i := by
  unfold intDec
  split
  · intro h
    rcases List.mem_cons.1 h with h | h
    · omega
    · exact decDigits_ne_58 _ h
  · exact decDigits_ne_58 _

theorem cutColon_append (a b : List Nat) (ha : 58 ∉ a) :
    cutColon (a ++ 58 :: b) = some (a, b) := by
  induction a with
  | nil => simp [cutColon]
  | cons c cs ih =>
      have hc : c ≠ 58 := fun h => ha (by simp [h])
      simp only [List.cons_append, cutColon, if_neg hc, List.append_eq]
      rw [ih (fun h => ha (by simp [h]))]
      rfl

/-- `atoi` on a pure digit string within the positive `int64` range. -/
theorem atoi_all_digits (l : List Nat) (hne : l ≠ [])
    (hall : ∀ d ∈ l, 48 ≤ d ∧ d ≤ 57)
    (hv : parseDigits l ≤ 9223372036854775807) :
    atoi l = ((parseDigits l : Int), none) := by
  rcases l with _ | ⟨d, ds⟩
  · exact absurd rfl hne
  have hd : 48 ≤ d ∧ d ≤ 57 := hall d (List.mem_cons_self d ds)
  have h45 : (d == 45) = false := by
    simp only [beq_eq_false_iff_ne, ne_eq]
    omega
  have h43 : (d == 43) = false := by
    simp only [beq_eq_false_iff_ne, ne_eq]
    omega
  have hallb : ((d :: ds).all fun x => decide (48 ≤ x) && decide (x ≤ 57)) = true := by
    rw [List.all_eq_true]
    intro x hx
    have := hall x hx
    simp only [Bool.and_eq_true, decide_eq_true_eq]
    omega
  unfold atoi
  simp only [h45, h43, Bool.or_self, Bool.false_eq_true, if_false,
    List.isEmpty_cons, hallb, Bool.not_true, Bool.or_false, Bool.false_or]
  have hlt : ¬ (9223372036854775807 < parseDigits (d :: ds)) := by omega
  rw [if_neg hlt]

/-- `atoi` on `-` followed by digits, magnitude within `2^63`. -/
theorem atoi_neg_digits (l : List Nat) (hne : l ≠ [])
    (hall : ∀ d ∈ l, 48 ≤ d ∧ d ≤ 57)
    (hv : parseDigits l ≤ 9223372036854775808) :
    atoi (45 :: l) = (-(parseDigits l : Int), none) := by
  have hallb : (l.all fun x => decide (48 ≤ x) && decide (x ≤ 57)) = true := by
    rw [List.all_eq_true]
    intro x hx
    have := hall x hx
    simp only [Bool.and_eq_true, decide_eq_true_eq]
    omega
  have hnee : l.isEmpty = false := by
    rcases l with _ | _
    · exact absurd rfl hne
    · rfl
  unfold atoi
  simp only [beq_self_eq_true, Bool.true_or, if_true, hnee, hallb,
    Bool.not_true, Bool.or_false, Bool.false_or, Bool.false_eq_true, if_false]
  have hlt : ¬ (9223372036854775808 < parseDigits l) := by omega
  rw [if_neg hlt]

/-- `strconv.Atoi` inverts `%d` on the `int64` range. -/
theorem atoi_intDec {i : Int} (hlo : -(2 ^ 63) ≤ i) (hhi : i < 2 ^ 63) :
    atoi (intDec i) = (i, none) := by
  by_cases hneg : i < 0
  · have hIntDec : intDec i = 45 :: decDigits (-i).toNat := by
      simp [intDec, hneg]
    rw [hIntDec,
      atoi_neg_digits _ (decDigits_ne_nil _) (decDigits_range _)
        (by rw [parseDigits_decDigits]; omega),
      parseDigits_decDigits]
    congr 1
    omega
  · have hIntDec : intDec i = decDigits i.toNat := by
      simp [intDec, hneg]
    rw [hIntDec,
      atoi_all_digits _ (decDigits_ne_nil _) (decDigits_range _)
        (by rw [parseDigits_decDigits]; omega),
      parseDigits_decDigits]
    congr 1
    omega

theorem requestCookie_singleton (name v : List Nat) :
    requestCookie [(name, v)] name = some v := by
  simp [requestCookie, List.find?]

theorem Read_ok {payload : List Nat} (name : List Nat) (hv : ValidB payload) :
    Read [(name, b64encode payload)] name = .ok payload := by
  unfold Read
  rw [requestCookie_singleton]
  simp only [b64decode_b64encode hv]

theorem cookieString_ne_nil {c : Cookie} (h : isCookieNameValid c.Name = true) :
    cookieString c ≠ [] := by
  unfold cookieString
  rw [h]
  simp only [Bool.not_true, Bool.false_eq_true, if_false]
  intro hcontra
  have hlen := congrArg List.length hcontra
  simp only [List.length_append, List.length_cons, List.length_nil] at hlen
  omega

/-- A valid name and an in-limit serialization make `Write` emit the
value-encoded cookie. -/
theorem Write_emit {w : List Cookie} {c : Cookie}
    (hname : isCookieNameValid c.Name = true)
    (hsize : (cookieString { c with Value := b64encode c.Value }).length ≤ 4096) :
    Write w c = (w ++ [{ c with Value := b64encode c.Value }], none) := by
  unfold Write
  rw [if_neg (by omega)]
  unfold setCookie
  rw [if_neg ?hne]
  case hne =>
    have := cookieString_ne_nil (c := { c with Value := b64encode c.Value }) hname
    simpa [List.isEmpty_iff] using this

/-- Successful signed read: when the stored tag is the HMAC of
`name ‖ value`, `ReadSigned` returns the value. -/
theorem readSigned_ok {name v tag k : List Nat} (hk : k.length ≠ 0)
    (hv : ValidB v) (htag : tag = hmacSha256 k (name ++ v)) :
    ReadSigned [(name, b64encode (tag ++ v))] name k = .ok v := by
  have htlen : tag.length = 32 := by rw [htag]; exact length_hmacSha256 _ _
  have htv : ValidB (tag ++ v) := by
    rw [htag]
    exact validB_append (validB_hmacSha256 _ _) hv
  unfold ReadSigned
  rw [if_neg hk, Read_ok name htv]
  have hlen : ¬ ((tag ++ v).length < 32) := by
    rw [List.length_append, htlen]
    omega
  simp only [hlen, if_false, Bool.false_eq_true]
  rw [show (32 : Nat) = tag.length from htlen.symm, List.take_left, List.drop_left]
  rw [if_pos htag]

/-- Failing signed read: a stored 32-byte tag different from the HMAC
of `name ‖ value` yields the signature-mismatch error. -/
theorem readSigned_mismatch {name v tag k : List Nat} (hk : k.length ≠ 0)
    (hv : ValidB v) (htagv : ValidB tag) (htlen : tag.length = 32)
    (htag : tag ≠ hmacSha256 k (name ++ v)) :
    ReadSigned [(name, b64encode (tag ++ v))] name k =
      .error (GoErr.wrap2 GoErr.errCookie (GoErr.errMsg "signature mismatch")) := by
  unfold ReadSigned
  rw [if_neg hk, Read_ok name (validB_append htagv hv)]
  have hlen : ¬ ((tag ++ v).length < 32) := by
    rw [List.length_append, htlen]
    omega
  simp only [hlen, if_false, Bool.false_eq_true]
  rw [show (32 : Nat) = tag.length from htlen.symm, List.take_left, List.drop_left]
  rw [if_neg htag]

theorem validB_gcmSeal {nonce pt : List Nat} (aes : AESCipher)
    (hnv : ValidB nonce) (hp : ValidB pt) :
    ValidB (gcmSeal aes nonce pt) := by
  simp only [gcmSeal]
  exact validB_append (validB_append hnv
    (validB_xorBytes hp (validB_gcmKeystream _ _ _))) (validB_gcmTag _ _ _)

/-- Reading back a cookie whose transported value is a seal of `pt`
under the same 32-byte key reduces `ReadEncrypted` to the
plaintext-processing tail of the source (split at `:`, parse the
identity). -/
theorem readEncrypted_seal_open {name k nonce pt : List Nat}
    (hk : k.length = 32) (hn : nonce.length = 12) (hnv : ValidB nonce)
    (hp : ValidB pt) :
    ReadEncrypted [(name, b64encode (gcmSeal (mkAES k) nonce pt))] name k =
      (match cutColon pt with
       | none =>
           (0, [], some (GoErr.wrap2 GoErr.errCookie (GoErr.errMsg "unable to split plaintext")))
       | some uv =>
           match atoi uv.1 with
           | (id, none) => (id, uv.2, none)
           | (_, some e) => (0, uv.2, some (GoErr.wrap2 GoErr.errCookie e))) := by
  have haes : aesNewCipher k = .ok (mkAES k) := by
    unfold aesNewCipher
    rw [if_pos (Or.inr (Or.inr hk))]
  have hslen : (gcmSeal (mkAES k) nonce pt).length =
      nonce.length + ((xorBytes pt (gcmKeystream (mkAES k) (nonce ++ [0, 0, 0, 1])
        ((pt.length + 15) / 16))).length + 16) := by
    simp only [gcmSeal, List.append_assoc, List.length_append, length_gcmTag]
  have htake : (gcmSeal (mkAES k) nonce pt).take 12 = nonce := by
    simp only [gcmSeal, List.append_assoc]
    rw [show (12 : Nat) = nonce.length from hn.symm, List.take_left]
  have hdrop : (gcmSeal (mkAES k) nonce pt).drop 12 =
      (gcmSeal (mkAES k) nonce pt).drop nonce.length := by rw [hn]
  unfold ReadEncrypted
  rw [Read_ok name (validB_gcmSeal _ hnv hp)]
  rw [haes]
  have hnotshort : ¬ ((gcmSeal (mkAES k) nonce pt).length < 12) := by
    rw [hslen, hn]
    omega
  simp only [hnotshort, if_false, Bool.false_eq_true]
  rw [htake, hdrop, gcmOpen_gcmSeal]

/-- C1 (amended): under a 32-byte key and 12-byte random nonce,
writing an encrypted cookie and reading it back under the same name
and key returns exactly `(i, v)` with no error — provided the write
actually emitted the cookie (valid token name, serialized cookie
within 4096 bytes). -/
theorem writeEncrypted_readEncrypted_roundtrip
    (w : List Cookie) (i : Int) (c : Cookie) (k nonce : List Nat)
    (hk : k.length = 32) (hn : nonce.length = 12) (hnv : ValidB nonce)
    (hv : ValidB c.Value)
    (hlo : -(2 ^ 63) ≤ i) (hhi : i < 2 ^ 63)
    (hname : isCookieNameValid c.Name = true)
    (hsize : (cookieString { c with
        Value := b64encode (gcmSeal (mkAES k) nonce (intDec i ++ [58] ++ c.Value)) }).length ≤ 4096) :
    WriteEncrypted w i c k nonce =
      (w ++ [{ c with
        Value := b64encode (gcmSeal (mkAES k) nonce (intDec i ++ [58] ++ c.Value)) }], none) ∧
    ReadEncrypted
        [(c.Name, b64encode (gcmSeal (mkAES k) nonce (intDec i ++ [58] ++ c.Value)))]
        c.Name k = (i, c.Value, none) := by
  have haes : aesNewCipher k = .ok (mkAES k) := by
    unfold aesNewCipher
    rw [if_pos (Or.inr (Or.inr hk))]
  have hptv : ValidB (intDec i ++ [58] ++ c.Value) :=
    validB_append (validB_append (validB_intDec i)
      (validB_cons (by omega) validB_nil)) hv
  constructor
  · unfold WriteEncrypted
    rw [haes]
    exact Write_emit hname hsize
  · rw [readEncrypted_seal_open hk hn hnv hptv]
    have hcut : cutColon (intDec i ++ [58] ++ c.Value) = some (intDec i, c.Value) := by
      have h1 : intDec i ++ [58] ++ c.Value = intDec i ++ 58 :: c.Value := by simp
      rw [h1]
      exact cutColon_append _ _ (intDec_ne_58 i)
    rw [hcut]
    simp only [atoi_intDec hlo hhi]

/-- C9: an authenticated plaintext whose identity part does not parse
as an integer makes `ReadEncrypted` return the error and still the
un-parsed value string alongside it. -/
theorem readEncrypted_parseFailure
    (name k nonce idPart v : List Nat) (x : Int) (e : GoErr)
    (hk : k.length = 32) (hn : nonce.length = 12) (hnv : ValidB nonce)
    (hidv : ValidB idPart) (hvv : ValidB v) (hid58 : 58 ∉ idPart)
    (herr : atoi idPart = (x, some e)) :
    ReadEncrypted
        [(name, b64encode (gcmSeal (mkAES k) nonce (idPart ++ [58] ++ v)))]
        name k = (0, v, some (GoErr.wrap2 GoErr.errCookie e)) := by
  rw [readEncrypted_seal_open hk hn hnv
    (validB_append (validB_append hidv (validB_cons (by omega) validB_nil)) hvv)]
  have hcut : cutColon (idPart ++ [58] ++ v) = some (idPart, v) := by
    have h1 : idPart ++ [58] ++ v = idPart ++ 58 :: v := by simp
    rw [h1]
    exact cutColon_append _ _ hid58
  rw [hcut]
  simp only [herr]

/-- C2 (amended): under a 32-byte key, writing a signed cookie and
reading it back under the same name and key returns exactly the value
with no error — provided the write actually emitted the cookie. -/
theorem writeSigned_readSigned_roundtrip
    (w : List Cookie) (c : Cookie) (k : List Nat)
    (hk : k.length = 32) (hv : ValidB c.Value)
    (hname : isCookieNameValid c.Name = true)
    (hsize : (cookieString { c with
        Value := b64encode (hmacSha256 k (c.Name ++ c.Value) ++ c.Value) }).length ≤ 4096) :
    WriteSigned w c k =
      (w ++ [{ c with
        Value := b64encode (hmacSha256 k (c.Name ++ c.Value) ++ c.Value) }], none) ∧
    ReadSigned
        [(c.Name, b64encode (hmacSha256 k (c.Name ++ c.Value) ++ c.Value))]
        c.Name k = .ok c.Value := by
  have hk0 : k.length ≠ 0 := by omega
  constructor
  · unfold WriteSigned
    rw [if_neg hk0]
    exact Write_emit hname hsize
  · exact readSigned_ok hk0 hv rfl

/-- C6 (amended): `Write` base64-encodes the value and fails with the
`ErrCookie`-wrapped size error — emitting nothing and never truncating
— exactly when the serialized cookie exceeds 4096 bytes; otherwise it
hands the encoded cookie to `http.SetCookie`, which emits it iff its
serialization is non-empty (i.e. the name is a valid token). -/
theorem write_sizeLimit (w : List Cookie) (c : Cookie) :
    (4096 < (cookieString { c with Value := b64encode c.Value }).length →
      Write w c = (w, some (GoErr.wrap "cookie value too long" GoErr.errCookie))) ∧
    ((cookieString { c with Value := b64encode c.Value }).length ≤ 4096 →
      Write w c =
        ((if (cookieString { c with Value := b64encode c.Value }).isEmpty then w
          else w ++ [{ c with Value := b64encode c.Value }]), none)) := by
  constructor
  · intro h
    unfold Write
    rw [if_pos h]
  · intro h
    unfold Write setCookie
    rw [if_neg (by omega)]

/-- One `Write` call either leaves the response untouched or appends a
cookie differing from the input only in `Value`. -/
theorem write_frame (w : List Cookie) (c : Cookie) :
    (Write w c).1 = w ∨
      ∃ x, (Write w c).1 = w ++ [{ c with Value := x }] := by
  simp only [Write, setCookie]
  split
  · exact Or.inl rfl
  · split
    · exact Or.inl rfl
    · exact Or.inr ⟨b64encode c.Value, rfl⟩

/-- C10: every cookie the three writers emit differs from the input
cookie only in its `Value` field (the writers receive the cookie by
value and only ever update `Value`). -/
theorem writers_frame (w : List Cookie) (c : Cookie) (i : Int)
    (k nonce : List Nat) :
    ((Write w c).1 = w ∨
      ∃ x, (Write w c).1 = w ++ [{ c with Value := x }]) ∧
    ((WriteSigned w c k).1 = w ∨
      ∃ x, (WriteSigned w c k).1 = w ++ [{ c with Value := x }]) ∧
    ((WriteEncrypted w i c k nonce).1 = w ∨
      ∃ x, (WriteEncrypted w i c k nonce).1 = w ++ [{ c with Value := x }]) := by
  refine ⟨write_frame w c, ?_, ?_⟩
  · unfold WriteSigned
    split
    · exact Or.inl rfl
    · exact write_frame w _
  · unfold WriteEncrypted
    split
    · exact Or.inl rfl
    · exact write_frame w _

/-- C7: a decoded request payload shorter than the 32-byte HMAC-SHA256
tag makes `ReadSigned` fail with the "signature wrong length"
`CookieError`. -/
theorem readSigned_shortSignature (name k enc payload : List Nat)
    (hk : k.length ≠ 0) (hdec : b64decode enc = some payload)
    (hlen : payload.length < 32) :
    ReadSigned [(name, enc)] name k =
      .error (GoErr.wrap2 GoErr.errCookie (GoErr.errMsg "signature wrong length")) := by
  unfold ReadSigned Read
  rw [if_neg hk, requestCookie_singleton]
  simp only [hdec]
  rw [if_pos hlen]

/-- C8 (amended): an invalid AES key length makes `WriteEncrypted` and
`ReadEncrypted` fail with an error wrapping `aes.KeySizeError`; the
package's `ErrEncryption` sentinel is never attached, so `errors.Is`
against it is false. -/
theorem invalidKeyLength_errors (w : List Cookie) (i : Int) (c : Cookie)
    (k nonce name enc payload : List Nat)
    (hk : ¬ (k.length = 16 ∨ k.length = 24 ∨ k.length = 32))
    (hdec : b64decode enc = some payload) :
    WriteEncrypted w i c k nonce =
      (w, some (GoErr.wrap "unable to create new cypher block for write"
        (GoErr.aesKeySize k.length))) ∧
    ReadEncrypted [(name, enc)] name k =
      (0, [], some (GoErr.wrap "unable to create new cypher block for read"
        (GoErr.aesKeySize k.length))) ∧
    GoErr.is (GoErr.wrap "unable to create new cypher block for write"
      (GoErr.aesKeySize k.length)) GoErr.errEncryption = false ∧
    GoErr.is (GoErr.wrap "unable to create new cypher block for read"
      (GoErr.aesKeySize k.length)) GoErr.errEncryption = false := by
  have haes : aesNewCipher k = .error (GoErr.aesKeySize k.length) := by
    unfold aesNewCipher
    rw [if_neg hk]
  refine ⟨?_, ?_, rfl, rfl⟩
  · unfold WriteEncrypted
    rw [haes]
  · unfold ReadEncrypted Read
    rw [requestCookie_singleton]
    simp only [hdec]
    rw [haes]

/-- C4 (amended): the payload `WriteSigned` produces for name `a` and
value `v` — tag `HMAC(k, a ‖ v)` prepended to `v` — fails verification
under any name `b` whose tag differs, with the signature-mismatch
error.  (The hypothesis excludes exactly the HMAC collisions
`HMAC(k, a ‖ v) = HMAC(k, b ‖ v)`, which exist mathematically but are
computationally infeasible to exhibit.) -/
theorem readSigned_crossName (a b v k : List Nat) (hk : k.length ≠ 0)
    (hv : ValidB v)
    (hdiff : hmacSha256 k (a ++ v) ≠ hmacSha256 k (b ++ v)) :
    ReadSigned [(b, b64encode (hmacSha256 k (a ++ v) ++ v))] b k =
      .error (GoErr.wrap2 GoErr.errCookie (GoErr.errMsg "signature mismatch")) :=
  readSigned_mismatch hk hv (validB_hmacSha256 _ _) (length_hmacSha256 _ _) hdiff

/-- C5 (amended): when `name1 ‖ value1 = name2 ‖ value2`, the HMAC
tags coincide (the tag is computed over the undelimited
concatenation); consequently the forged payload carrying that tag with
`value2` is accepted by `ReadSigned` under `name2`, returning
`value2`.  (The payload `WriteSigned` produced for `(name1, value1)`
itself still carries `value1`, so presenting it unchanged under
`name2` is rejected — see the counterexample.) -/
theorem signed_concat_ambiguity (n1 v1 n2 v2 k : List Nat)
    (hcat : n1 ++ v1 = n2 ++ v2) (hk : k.length ≠ 0) (hv2 : ValidB v2) :
    hmacSha256 k (n1 ++ v1) = hmacSha256 k (n2 ++ v2) ∧
    ReadSigned [(n2, b64encode (hmacSha256 k (n1 ++ v1) ++ v2))] n2 k =
      .ok v2 := by
  have htags : hmacSha256 k (n1 ++ v1) = hmacSha256 k (n2 ++ v2) := by
    rw [hcat]
  exact ⟨htags, readSigned_ok hk hv2 htags⟩

/-- C3 (amended): for a tampered transported value `s'` of a signed
cookie, `ReadSigned` (a) fails with a wrapped transport decode error
when `s'` is no longer valid base64; (b) succeeds with the original
value when `s'` still decodes to the original payload (e.g. a flip in
the trailing bits the padded decoder ignores); (c) fails with the
signature-mismatch error when the decoded payload differs only in the
32-byte tag.  (A flip that changes the decoded value bytes is rejected
exactly when no HMAC second preimage is hit.) -/
theorem readSigned_tampered (name v k s' : List Nat) (hk : k.length ≠ 0) :
    (b64decode s' = none →
      ReadSigned [(name, s')] name k =
        .error (GoErr.wrap2 GoErr.errCookie
          (GoErr.wrap "cannot decode" GoErr.base64Corrupt))) ∧
    (b64decode s' = some (hmacSha256 k (name ++ v) ++ v) →
      ReadSigned [(name, s')] name k = .ok v) ∧
    (∀ tag, b64decode s' = some (tag ++ v) → tag.length = 32 →
      tag ≠ hmacSha256 k (name ++ v) →
      ReadSigned [(name, s')] name k =
        .error (GoErr.wrap2 GoErr.errCookie (GoErr.errMsg "signature mismatch"))) := by
  refine ⟨?_, ?_, ?_⟩
  · intro hdec
    unfold ReadSigned Read
    rw [if_neg hk, requestCookie_singleton]
    simp only [hdec]
  · intro hdec
    unfold ReadSigned Read
    rw [if_neg hk, requestCookie_singleton]
    simp only [hdec]
    have htlen : (hmacSha256 k (name ++ v)).length = 32 := length_hmacSha256 _ _
    have hlen : ¬ ((hmacSha256 k (name ++ v) ++ v).length < 32) := by
      rw [List.length_append, htlen]
      omega
    simp only [hlen, if_false, Bool.false_eq_true]
    rw [show (32 : Nat) = (hmacSha256 k (name ++ v)).length from htlen.symm,
      List.take_left, List.drop_left]
    rw [if_pos rfl]
  · intro tag hdec htlen hne
    unfold ReadSigned Read
    rw [if_neg hk, requestCookie_singleton]
    simp only [hdec]
    have hlen : ¬ ((tag ++ v).length < 32) := by
      rw [List.length_append, htlen]
      omega
    simp only [hlen, if_false, Bool.false_eq_true]
    rw [show (32 : Nat) = tag.length from htlen.symm,
      List.take_left, List.drop_left]
    rw [if_neg hne]

-- There are more 33-byte names than 32-byte HMAC tags, so two
-- distinct names share a tag: the claim "a signature produced for
-- cookie name a must fail verification when presented under cookie
-- name b" is false as a universal statement — for some pair of
-- distinct names (with the empty value) the presented payload
-- verifies.  (`seal` only steers elaboration away from unfolding the
-- hash on symbolic arguments.)
seal hmacSha256 sha256 b64encode ReadSigned in
theorem c4_cross_name_collision_exists :
    ∃ a b : List Nat, a ≠ b ∧
      ReadSigned
        [(b, b64encode (hmacSha256 (List.replicate 32 0) (a ++ []) ++ ([] : List Nat)))]
        b (List.replicate 32 0) = .ok [] := by
  classical
  have hlen32 : ∀ l : List Nat,
      (hmacSha256 (List.replicate 32 0) l).length = 32 := fun l =>
    length_hmacSha256 _ _
  have hgetlt : ∀ (l : List Nat) (i : Fin 32),
      (hmacSha256 (List.replicate 32 0) l).getD (i : Nat) 0 < 256 := by
    intro l i
    have hi : (i : Nat) < (hmacSha256 (List.replicate 32 0) l).length := by
      rw [hlen32]
      exact i.isLt
    rw [List.getD_eq_getElem _ _ hi]
    exact validB_hmacSha256 _ _ _ (List.getElem_mem hi)
  obtain ⟨f, g, hfg, hFeq⟩ :=
    Fintype.exists_ne_map_eq_of_card_lt
      (fun (f : Fin 33 → Fin 256) (i : Fin 32) =>
        (⟨(hmacSha256 (List.replicate 32 0)
            (List.ofFn (fun j => ((f j : Fin 256) : Nat)))).getD (i : Nat) 0,
          hgetlt _ i⟩ : Fin 256))
      (by
        simp only [Fintype.card_fun, Fintype.card_fin]
        exact Nat.pow_lt_pow_right (by omega) (by omega))
  refine ⟨List.ofFn (fun j => ((f j : Fin 256) : Nat)),
    List.ofFn (fun j => ((g j : Fin 256) : Nat)), ?_, ?_⟩
  · intro heq
    apply hfg
    have hfun := List.ofFn_inj.mp heq
    funext i
    exact Fin.val_injective (congrFun hfun i)
  · have htag : hmacSha256 (List.replicate 32 0)
        (List.ofFn (fun j => ((f j : Fin 256) : Nat))) =
        hmacSha256 (List.replicate 32 0)
          (List.ofFn (fun j => ((g j : Fin 256) : Nat))) := by
      apply List.ext_getElem
      · rw [hlen32, hlen32]
      · intro j hj1 hj2
        have hj : j < 32 := by
          rw [hlen32] at hj1
          exact hj1
        have hval : (hmacSha256 (List.replicate 32 0)
            (List.ofFn (fun j => ((f j : Fin 256) : Nat)))).getD j 0 =
            (hmacSha256 (List.replicate 32 0)
              (List.ofFn (fun j => ((g j : Fin 256) : Nat)))).getD j 0 :=
          congrArg Fin.val (congrFun hFeq ⟨j, hj⟩)
        rw [List.getD_eq_getElem _ _ hj1, List.getD_eq_getElem _ _ hj2] at hval
        exact hval
    have htag2 : hmacSha256 (List.replicate 32 0)
        (List.ofFn (fun j => ((f j : Fin 256) : Nat)) ++ []) =
        hmacSha256 (List.replicate 32 0)
          (List.ofFn (fun j => ((g j : Fin 256) : Nat)) ++ []) := by
      rw [List.append_nil, List.append_nil]
      exact htag
    exact readSigned_ok (by rw [List.length_replicate]; omega) validB_nil htag2

theorem cookieString_length_ge {c : Cookie}
    (h : isCookieNameValid c.Name = true) :
    c.Name.length ≤ (cookieString c).length := by
  unfold cookieString
  rw [h]
  simp only [Bool.not_true, Bool.false_eq_true, if_false, List.append_assoc,
    List.length_append]
  omega

theorem replicate_name_valid (m : Nat) :
    isCookieNameValid (List.replicate (m + 1) 97) = true := by
  unfold isCookieNameValid
  rw [List.replicate_succ, Bool.and_eq_true]
  refine ⟨rfl, ?_⟩
  rw [List.all_eq_true]
  intro x hx
  have hx97 : x = 97 := by
    rcases List.mem_cons.1 hx with h | h
    · exact h
    · exact List.eq_of_mem_replicate h
  subst hx97
  decide

theorem write_tooLong {w : List Cookie} {c : Cookie}
    (h : 4096 < (cookieString { c with Value := b64encode c.Value }).length) :
    Write w c = (w, some (GoErr.wrap "cookie value too long" GoErr.errCookie)) := by
  unfold Write
  rw [if_pos h]

-- Counterexample to C1 as stated: a cookie whose serialized form
-- exceeds 4096 bytes (here via a 4097-byte name) is rejected by the
-- transport layer, so reading it back fails instead of returning
-- (i, v).
set_option maxRecDepth 100000 in
seal gcmSeal hmacSha256 sha256 b64encode cookieString mkAES in
theorem c1_counterexample :
    WriteEncrypted [] 0 { Name := List.replicate 4097 97 }
        (List.replicate 32 0) (List.replicate 12 0) =
      ([], some (GoErr.wrap "cookie value too long" GoErr.errCookie)) ∧
    ReadEncrypted [] (List.replicate 4097 97) (List.replicate 32 0) =
      (0, [], some (GoErr.wrap "unable to read encrypted cookie"
        (GoErr.wrap "not found" GoErr.errNoCookie))) := by
  constructor
  · have haes : aesNewCipher (List.replicate 32 0) =
        .ok (mkAES (List.replicate 32 0)) := by
      unfold aesNewCipher
      rw [if_pos (Or.inr (Or.inr (by rw [List.length_replicate])))]
    unfold WriteEncrypted
    rw [haes]
    apply write_tooLong
    have hname : isCookieNameValid (List.replicate 4097 97) = true :=
      replicate_name_valid 4096
    have h1 : (4096 : Nat) < (List.replicate 4097 97).length := by
      rw [List.length_replicate]
      omega
    refine lt_of_lt_of_le ?_ (cookieString_length_ge ?_)
    · exact h1
    · exact hname
  · rfl
-- Counterexample to C2 as stated: with an invalid (empty) cookie name
-- `WriteSigned` reports no error but `http.SetCookie` emits nothing,
-- so reading back fails instead of returning v.
set_option maxRecDepth 1000000 in
theorem c2_counterexample :
    WriteSigned [] { Name := [], Value := [97] } (List.replicate 32 0) =
      ([], none) ∧
    ReadSigned [] [] (List.replicate 32 0) =
      .error (GoErr.wrap2 GoErr.errCookie
        (GoErr.wrap "not found" GoErr.errNoCookie)) := by
  decide

-- Counterexample to C3 as stated: flipping bit 1 of the transported
-- byte at index 45 (the final data character before the `==` padding)
-- yields a different valid base64 string decoding to the same payload,
-- so ReadSigned succeeds instead of failing with a signature mismatch.
set_option maxRecDepth 1000000 in
theorem c3_counterexample :
    (b64encode (hmacSha256 (List.replicate 32 0) (ascii "n" ++ ascii "ad") ++
        ascii "ad")).getD 45 0 = 65 ∧
    (65 ^^^ 2 : Nat) = 67 ∧
    (b64encode (hmacSha256 (List.replicate 32 0) (ascii "n" ++ ascii "ad") ++
        ascii "ad")).set 45 67 ≠
      b64encode (hmacSha256 (List.replicate 32 0) (ascii "n" ++ ascii "ad") ++
        ascii "ad") ∧
    ReadSigned
        [(ascii "n",
          (b64encode (hmacSha256 (List.replicate 32 0) (ascii "n" ++ ascii "ad") ++
            ascii "ad")).set 45 67)]
        (ascii "n") (List.replicate 32 0) = .ok (ascii "ad") := by
  decide

-- Counterexample to C5 as stated: the payload actually produced by
-- WriteSigned for name "ab", value "c" still carries value "c", so
-- presented under name "a" it is rejected (signature mismatch), not
-- accepted as value "bc".
set_option maxRecDepth 1000000 in
theorem c5_counterexample :
    ReadSigned
        [(ascii "a",
          b64encode (hmacSha256 (List.replicate 32 0) (ascii "ab" ++ ascii "c") ++
            ascii "c"))]
        (ascii "a") (List.replicate 32 0) =
      .error (GoErr.wrap2 GoErr.errCookie (GoErr.errMsg "signature mismatch")) := by
  decide

-- Counterexample to C6 as stated: an invalid (empty) name serializes
-- to the empty string, so the size check passes and no error is
-- returned, yet nothing is emitted on the response.
theorem c6_counterexample :
    (cookieString { Name := ([] : List Nat), Value := b64encode [] }).length ≤ 4096 ∧
    Write [] { Name := [] } = ([], none) := by
  decide

-- Counterexample to C8 as stated: with a 31-byte key the writers fail
-- with a wrap of `aes.KeySizeError`, and `errors.Is` of that error
-- against the package's `ErrEncryption` sentinel is false — the error
-- is not of the EncryptionFailure kind.
theorem c8_counterexample :
    WriteEncrypted [] 0 { Name := ascii "n" } (List.replicate 31 0)
        (List.replicate 12 0) =
      ([], some (GoErr.wrap "unable to create new cypher block for write"
        (GoErr.aesKeySize 31))) ∧
    GoErr.is (GoErr.wrap "unable to create new cypher block for write"
      (GoErr.aesKeySize 31)) GoErr.errEncryption = false := by
  decide

-- Witness for C1 at a concrete input: userID 42, name "session",
-- value "sess-abc", all-zero 32-byte key and 12-byte nonce.
set_option maxRecDepth 1000000 in
theorem c1_witness :
    WriteEncrypted [] 42 { Name := ascii "session", Value := ascii "sess-abc" }
        (List.replicate 32 0) (List.replicate 12 0) =
      ([{ ({ Name := ascii "session", Value := ascii "sess-abc" } : Cookie) with
          Value := b64encode (gcmSeal (mkAES (List.replicate 32 0)) (List.replicate 12 0)
            (intDec 42 ++ [58] ++ ascii "sess-abc")) }], none) ∧
    ReadEncrypted
        [(ascii "session", b64encode (gcmSeal (mkAES (List.replicate 32 0)) (List.replicate 12 0)
          (intDec 42 ++ [58] ++ ascii "sess-abc")))]
        (ascii "session") (List.replicate 32 0) = (42, ascii "sess-abc", none) :=
  writeEncrypted_readEncrypted_roundtrip []
    42 { Name := ascii "session", Value := ascii "sess-abc" }
    (List.replicate 32 0) (List.replicate 12 0)
    (by decide) (by decide) (by decide) (by decide) (by decide) (by decide)
    (by decide) (by decide)

-- Witness for C2 at a concrete input: name "sid", value "v",
-- all-zero 32-byte key.
set_option maxRecDepth 1000000 in
theorem c2_witness :
    WriteSigned [] { Name := ascii "sid", Value := ascii "v" } (List.replicate 32 0) =
      ([{ ({ Name := ascii "sid", Value := ascii "v" } : Cookie) with
          Value := b64encode (hmacSha256 (List.replicate 32 0)
            (ascii "sid" ++ ascii "v") ++ ascii "v") }], none) ∧
    ReadSigned
        [(ascii "sid", b64encode (hmacSha256 (List.replicate 32 0)
          (ascii "sid" ++ ascii "v") ++ ascii "v"))]
        (ascii "sid") (List.replicate 32 0) = .ok (ascii "v") :=
  writeSigned_readSigned_roundtrip [] { Name := ascii "sid", Value := ascii "v" }
    (List.replicate 32 0) (by decide) (by decide) (by decide) (by decide)

-- Witness for C3 at a concrete input: the transported byte 64 ('@')
-- is not valid base64, so the read fails with the decode error.
theorem c3_witness :
    ReadSigned [(ascii "n", [64])] (ascii "n") (List.replicate 32 0) =
      .error (GoErr.wrap2 GoErr.errCookie
        (GoErr.wrap "cannot decode" GoErr.base64Corrupt)) :=
  (readSigned_tampered (ascii "n") [] (List.replicate 32 0) [64] (by decide)).1
    (by decide)

-- Witness for C4 at a concrete input: the tag for name "a", value "x"
-- differs from the tag for name "b", value "x", so the cross-name
-- presentation is rejected.
set_option maxRecDepth 1000000 in
theorem c4_witness :
    ReadSigned
        [(ascii "b", b64encode (hmacSha256 (List.replicate 32 0)
          (ascii "a" ++ ascii "x") ++ ascii "x"))]
        (ascii "b") (List.replicate 32 0) =
      .error (GoErr.wrap2 GoErr.errCookie (GoErr.errMsg "signature mismatch")) :=
  readSigned_crossName (ascii "a") (ascii "b") (ascii "x") (List.replicate 32 0)
    (by decide) (by decide) (by decide)

-- Witness for C5 at a concrete input: ("ab", "c") and ("a", "bc")
-- concatenate to the same bytes, so the spliced payload is accepted
-- under name "a" with value "bc".
set_option maxRecDepth 1000000 in
theorem c5_witness :
    hmacSha256 (List.replicate 32 0) (ascii "ab" ++ ascii "c") =
      hmacSha256 (List.replicate 32 0) (ascii "a" ++ ascii "bc") ∧
    ReadSigned
        [(ascii "a", b64encode (hmacSha256 (List.replicate 32 0)
          (ascii "ab" ++ ascii "c") ++ ascii "bc"))]
        (ascii "a") (List.replicate 32 0) = .ok (ascii "bc") :=
  signed_concat_ambiguity (ascii "ab") (ascii "c") (ascii "a") (ascii "bc")
    (List.replicate 32 0) (by decide) (by decide) (by decide)

-- Witness for C6 at a concrete input: name "sid", value "v" is within
-- the limit, so the encoded cookie is handed to SetCookie.
theorem c6_witness :
    Write [] { Name := ascii "sid", Value := ascii "v" } =
      ((if (cookieString { ({ Name := ascii "sid", Value := ascii "v" } : Cookie) with
            Value := b64encode (ascii "v") }).isEmpty then ([] : List Cookie)
        else [] ++ [{ ({ Name := ascii "sid", Value := ascii "v" } : Cookie) with
            Value := b64encode (ascii "v") }]), none) :=
  (write_sizeLimit [] { Name := ascii "sid", Value := ascii "v" }).2 (by decide)

-- Witness for C7 at a concrete input: a 3-byte decoded payload is
-- shorter than the 32-byte tag.
theorem c7_witness :
    ReadSigned [(ascii "n", b64encode [1, 2, 3])] (ascii "n") (List.replicate 32 0) =
      .error (GoErr.wrap2 GoErr.errCookie (GoErr.errMsg "signature wrong length")) :=
  readSigned_shortSignature (ascii "n") (List.replicate 32 0) (b64encode [1, 2, 3])
    [1, 2, 3] (by decide) (by decide) (by decide)

-- Witness for C8 at a concrete input: a 20-byte key is not a valid
-- AES key length.
theorem c8_witness :
    WriteEncrypted [] 0 { Name := ascii "sid" } (List.replicate 20 0)
        (List.replicate 12 0) =
      ([], some (GoErr.wrap "unable to create new cypher block for write"
        (GoErr.aesKeySize (List.replicate 20 0).length))) ∧
    ReadEncrypted [(ascii "sid", b64encode [1, 2])] (ascii "sid")
        (List.replicate 20 0) =
      (0, [], some (GoErr.wrap "unable to create new cypher block for read"
        (GoErr.aesKeySize (List.replicate 20 0).length))) ∧
    GoErr.is (GoErr.wrap "unable to create new cypher block for write"
      (GoErr.aesKeySize (List.replicate 20 0).length)) GoErr.errEncryption = false ∧
    GoErr.is (GoErr.wrap "unable to create new cypher block for read"
      (GoErr.aesKeySize (List.replicate 20 0).length)) GoErr.errEncryption = false :=
  invalidKeyLength_errors [] 0 { Name := ascii "sid" } (List.replicate 20 0)
    (List.replicate 12 0) (ascii "sid") (b64encode [1, 2]) [1, 2]
    (by decide) (by decide)

-- Witness for C9 at a concrete input: the identity part "abc" is not
-- an integer, so the read reports the Atoi syntax error and still
-- returns the value part "v".
set_option maxRecDepth 1000000 in
theorem c9_witness :
    ReadEncrypted
        [(ascii "sid", b64encode (gcmSeal (mkAES (List.replicate 32 0))
          (List.replicate 12 0) (ascii "abc" ++ [58] ++ ascii "v")))]
        (ascii "sid") (List.replicate 32 0) =
      (0, ascii "v", some (GoErr.wrap2 GoErr.errCookie
        (GoErr.wrap "strconv.Atoi" GoErr.atoiSyntax))) :=
  readEncrypted_parseFailure (ascii "sid") (List.replicate 32 0) (List.replicate 12 0)
    (ascii "abc") (ascii "v") 0 (GoErr.wrap "strconv.Atoi" GoErr.atoiSyntax)
    (by decide) (by decide) (by decide) (by decide) (by decide) (by decide) (by decide)
